import Mathlib

/-!
Verification of the scanline polygon-fill / triangulation core
(`src/t1CG/core/polygon_fill_algorithm.h`) of the Computer-Graphics-USP-ICMC
repository.

The C++ code is shallowly embedded: `double` becomes `Rat` (the concrete
inputs of interest stay exact), C++ `int` becomes `Int`, the
`static_cast<int>` conversion becomes truncation toward zero, and the two
`while` loops of `fillPolygon` / `generateTriangulation` become fuel-based
tail recursions over an explicit state (scanline row plus active edge
table), with a fuel bound proved sufficient.  The OpenGL emission calls
(`glVertex2i`, triangle `push_back`) are reified as values: a list of
`FillOut` spans/points for `fillPolygon` and a list of triangles (each a
3-element list of `Point2D`) for `generateTriangulation`, following the
abstraction in spec section 6.

`std::sort` on the active edge table uses the comparator
`edge1.currentX < edge2.currentX` and leaves the order of equal keys
unspecified; the embedding fixes a deterministic insertion sort with the
same comparator (spec section 4.2 step 2 explicitly allows choosing a
deterministic tie-break).
-/

/-- Modelled from the spec: `data_structures.h` is not under `src/` (only its
includers are).  Spec section 3: a Vertex is "a 2D point with integer
(device-pixel) coordinates `(x, y)`"; the field names `coordinateX`,
`coordinateY` are those used by `polygon_fill_algorithm.h`. -/
structure Point2D where
  coordinateX : Int
  coordinateY : Int
deriving DecidableEq, Repr, Inhabited

/-- Modelled from the spec: `data_structures.h` is not under `src/`.
Spec section 3 lists the Edge attributes `yMax`, `xAtYMin`, `inverseSlope`,
`yMin`; the field names and the constructor argument order
`EdgeData(maximumY, currentX, inverseSlope, minimumY)` are those used by
`polygon_fill_algorithm.h`. -/
structure EdgeData where
  maximumY : Int
  currentX : Rat
  inverseSlope : Rat
  minimumY : Int
deriving DecidableEq, Repr, Inhabited

/-- One emitted fill primitive: a horizontal span drawn by the `GL_LINES`
branch of `fillPolygon` (recorded as its row and the two inclusive span
endpoints `x1`, `x2`, per spec section 4.2 step 3), or the single point
drawn by the odd-parity `GL_POINTS` branch. -/
inductive FillOut where
  | span (row xStart xEnd : Int)
  | point (row x : Int)
deriving DecidableEq, Repr

/-- C++ `static_cast<int>` on a `double`: truncation toward zero. -/
def ratTrunc (q : Rat) : Int := Int.tdiv q.num q.den

/-- `PolygonFillAlgorithm::calculateInverseSlope`. -/
def calculateInverseSlope (point1 point2 : Point2D) : Rat :=
  let deltaX : Rat := ((point2.coordinateX - point1.coordinateX : Int) : Rat)
  let deltaY : Rat := ((point2.coordinateY - point1.coordinateY : Int) : Rat)
  if deltaY = 0 then 0 else deltaX / deltaY

/-- `edgeTable[r].push_back(e)` on an edge table represented as a list of
row buckets. -/
def etPush (et : List (List EdgeData)) (r : Nat) (e : EdgeData) : List (List EdgeData) :=
  et.set r (et.getD r [] ++ [e])

/-- The body of the `for` loop of `buildEdgeTable` for one `vertexIndex`,
reified as the optional bucket assignment it performs: `some (row, edge)`
when the edge is pushed into `edgeTable[row]`, `none` when it is dropped.
`(vertexIndex + n - 1) % n` is the C++ `(vertexIndex - 1 + size) % size`
(equal for `vertexIndex < n`). -/
def binOf (polygonVertices : List Point2D) (maxHeight : Nat) (vertexIndex : Nat) :
    Option (Nat × EdgeData) :=
  let n := polygonVertices.length
  let currentVertex := polygonVertices.getD vertexIndex default
  let nextVertex := polygonVertices.getD ((vertexIndex + 1) % n) default
  if currentVertex.coordinateY = nextVertex.coordinateY then
    let minY := currentVertex.coordinateY
    let maxY := nextVertex.coordinateY
    let initX : Rat := (currentVertex.coordinateX : Rat)
    if 0 ≤ minY ∧ minY < (maxHeight : Int) then
      some (minY.toNat, ⟨maxY, initX, 0, minY⟩)
    else none
  else
    let swapped := nextVertex.coordinateY < currentVertex.coordinateY
    let minYPoint := if swapped then nextVertex else currentVertex
    let maxYPoint := if swapped then currentVertex else nextVertex
    let inverseSlope := calculateInverseSlope minYPoint maxYPoint
    let initialX : Rat := (minYPoint.coordinateX : Rat)
    let maximumY := maxYPoint.coordinateY
    let minimumY := minYPoint.coordinateY
    let adjusted :=
      if 0 ≤ minimumY ∧ minimumY < (maxHeight : Int) then
        let isCur := minYPoint.coordinateX = currentVertex.coordinateX ∧
          minYPoint.coordinateY = currentVertex.coordinateY
        let prevVertex := if isCur then polygonVertices.getD ((vertexIndex + n - 1) % n) default
          else currentVertex
        let nextAdjacentVertex := if isCur then nextVertex
          else polygonVertices.getD ((vertexIndex + 2) % n) default
        let prevAbove := prevVertex.coordinateY < minimumY
        let nextAbove := nextAdjacentVertex.coordinateY < minimumY
        if prevAbove = nextAbove ∧ ¬ prevAbove then (minimumY + 1, initialX + inverseSlope)
        else (minimumY, initialX)
      else (minimumY, initialX)
    if 0 ≤ adjusted.1 ∧ adjusted.1 < (maxHeight : Int) then
      some (adjusted.1.toNat, ⟨maximumY, adjusted.2, inverseSlope, adjusted.1⟩)
    else none

/-- Perform the optional bucket push decided by `binOf` for one edge. -/
def applyBin (polygonVertices : List Point2D) (maxHeight : Nat)
    (et : List (List EdgeData)) (vertexIndex : Nat) : List (List EdgeData) :=
  match binOf polygonVertices maxHeight vertexIndex with
  | some (r, e) => etPush et r e
  | none => et

/-- `PolygonFillAlgorithm::buildEdgeTable`: an edge table of `maxHeight`
row buckets, populated edge by edge. -/
def buildEdgeTable (polygonVertices : List Point2D) (maxHeight : Nat) :
    List (List EdgeData) :=
  let edgeTable := List.replicate maxHeight ([] : List EdgeData)
  if polygonVertices.length < 2 then edgeTable
  else
    (List.range polygonVertices.length).foldl
      (applyBin polygonVertices maxHeight) edgeTable

/-- Insert one edge into a list sorted by `currentX` (comparator
`edge1.currentX < edge2.currentX`, as in the `std::sort` lambda). -/
def insertByX (e : EdgeData) : List EdgeData → List EdgeData
  | [] => [e]
  | f :: rest => if e.currentX < f.currentX then e :: f :: rest else f :: insertByX e rest

/-- Deterministic sort by `currentX` standing in for the `std::sort` call
(which leaves equal-key order unspecified). -/
def sortByX : List EdgeData → List EdgeData
  | [] => []
  | e :: rest => insertByX e (sortByX rest)

/-- The mutable loop state of the two scanline `while` loops:
`currentScanLine` and `activeEdgeTable`. -/
structure FillState where
  scanLine : Nat
  aet : List EdgeData
deriving DecidableEq, Repr

/-- `edge.currentX += edge.inverseSlope`. -/
def advanceEdge (e : EdgeData) : EdgeData :=
  { e with currentX := e.currentX + e.inverseSlope }

/-- The active edge table as the emission step sees it: the carried AET
with the current row bucket appended (the `push_back` loop; an
out-of-range or empty bucket appends nothing) and then sorted by x. -/
def mergedAET (et : List (List EdgeData)) (s : FillState) : List EdgeData :=
  sortByX (s.aet ++ et.getD s.scanLine [])

/-- The shared per-row state update of both loops: merge and sort, advance
the scanline, add `inverseSlope` to every `currentX`, and erase edges with
`maximumY <= currentScanLine`. -/
def coreStep (et : List (List EdgeData)) (s : FillState) : FillState :=
  let nextLine := s.scanLine + 1
  ⟨nextLine,
    ((mergedAET et s).map advanceEdge).filter
      (fun e => decide ((nextLine : Int) < e.maximumY))⟩

/-- The swap (`if (x1 > x2) swap`) and clamping (`x1` to 0, `x2` to
`maxWidth - 1`) applied to a rounded pair of span endpoints before
emission. -/
def spanClamp (maxWidth : Nat) (x1 x2 : Int) : Int × Int :=
  let lo := if x2 < x1 then x2 else x1
  let hi := if x2 < x1 then x1 else x2
  (if lo < 0 then 0 else lo, if (maxWidth : Int) ≤ hi then (maxWidth : Int) - 1 else hi)

/-- The span/point emissions of one `fillPolygon` row: consecutive pairs
`(0,1),(2,3),…` produce clamped spans, a trailing unpaired edge produces
the odd-parity point.  Mirrors the `for (edgeIndex += 2)` loop followed by
the `size % 2 == 1` branch. -/
def emitPairs (maxHeight maxWidth : Nat) (y : Int) : List EdgeData → List FillOut
  | e1 :: e2 :: rest =>
    let x1 := ratTrunc (e1.currentX + 1/2)
    let x2 := ratTrunc (e2.currentX + 1/2)
    let c := spanClamp maxWidth x1 x2
    (if c.1 ≤ c.2 ∧ 0 ≤ y ∧ y < (maxHeight : Int) then [FillOut.span y c.1 c.2] else []) ++
      emitPairs maxHeight maxWidth y rest
  | [e] =>
    let x := ratTrunc (e.currentX + 1/2)
    if 0 ≤ x ∧ x < (maxWidth : Int) ∧ 0 ≤ y ∧ y < (maxHeight : Int) then
      [FillOut.point y x]
    else []
  | [] => []

/-- One row of `fillPolygon` output: nothing unless the AET holds at least
two edges (the `activeEdgeTable.size() >= 2` guard encloses both the span
loop and the odd-parity point). -/
def fillRowOut (aet : List EdgeData) (y : Int) (maxHeight maxWidth : Nat) : List FillOut :=
  if 2 ≤ aet.length then emitPairs maxHeight maxWidth y aet else []

/-- The `while` loop of `fillPolygon`, with explicit fuel.  The loop
re-checks its condition at the top (the trailing `break` inside the C++
loop tests the same condition). -/
def fillLoop (et : List (List EdgeData)) (maxHeight maxWidth : Nat) :
    Nat → FillState → List FillOut
  | 0, _ => []
  | fuel + 1, s =>
    if s.scanLine < et.length ∨ s.aet ≠ [] then
      fillRowOut (mergedAET et s) (s.scanLine : Int) maxHeight maxWidth ++
        fillLoop et maxHeight maxWidth fuel (coreStep et s)
    else []

/-- The initial scan for the lowest non-empty edge-table row
(`while (currentScanLine < size && edgeTable[currentScanLine].empty())`). -/
def firstRow (et : List (List EdgeData)) : Nat :=
  et.findIdx (fun b => !b.isEmpty)

/-- All edge-table entries tagged with their bucket row, starting from
row `k`. -/
def etEnumFrom (k : Nat) : List (List EdgeData) → List (Nat × EdgeData)
  | [] => []
  | b :: rest => b.map (fun e => (k, e)) ++ etEnumFrom (k + 1) rest

/-- All edge-table entries tagged with their bucket row. -/
def etEnum (et : List (List EdgeData)) : List (Nat × EdgeData) :=
  etEnumFrom 0 et

/-- An upper bound (as a natural number) on the `maximumY` of every edge
stored in the table. -/
def etMaxYBound (et : List (List EdgeData)) : Nat :=
  (etEnum et).foldl (fun m p => max m p.2.maximumY.toNat) 0

/-- Sufficient fuel for the scanline loops: past this many rows the loop
condition is false (proved below). -/
def loopFuel (et : List (List EdgeData)) : Nat :=
  max et.length (etMaxYBound et + 1)

/-- `PolygonFillAlgorithm::fillPolygon`, returning the emitted spans and
points instead of issuing OpenGL calls (the fill color does not affect
geometry and is omitted). -/
def fillPolygon (polygonVertices : List Point2D) (maxHeight maxWidth : Nat) : List FillOut :=
  if polygonVertices.length < 3 then []
  else
    let edgeTable := buildEdgeTable polygonVertices maxHeight
    let start := firstRow edgeTable
    if edgeTable.length ≤ start then []
    else fillLoop edgeTable maxHeight maxWidth (loopFuel edgeTable) ⟨start, []⟩

/-- The triangle emissions of one `generateTriangulation` row: each
consecutive AET pair contributes the two triangles of a height-1
trapezoid, with the predicted next-row x values and `(int)` truncation of
the C++ code.  The loop `i < size - 1, i += 2` emits nothing for a
trailing unpaired edge. -/
def triEmitPairs (y : Int) : List EdgeData → List (List Point2D)
  | e1 :: e2 :: rest =>
    let x1s := e1.currentX
    let x2s := e2.currentX
    let x1e := x1s + e1.inverseSlope
    let x2e := x2s + e2.inverseSlope
    let p1 : Point2D := ⟨ratTrunc x1s, y⟩
    let p2 : Point2D := ⟨ratTrunc x2s, y⟩
    let p3 : Point2D := ⟨ratTrunc x1e, y + 1⟩
    let p4 : Point2D := ⟨ratTrunc x2e, y + 1⟩
    [p1, p2, p3] :: [p2, p4, p3] :: triEmitPairs y rest
  | _ => []

/-- One row of `generateTriangulation` output (guarded by the same
`size >= 2` check as the fill variant). -/
def triRowOut (aet : List EdgeData) (y : Int) : List (List Point2D) :=
  if 2 ≤ aet.length then triEmitPairs y aet else []

/-- The `while` loop of `generateTriangulation`, with explicit fuel; the
state update is the shared `coreStep`. -/
def triLoop (et : List (List EdgeData)) : Nat → FillState → List (List Point2D)
  | 0, _ => []
  | fuel + 1, s =>
    if s.scanLine < et.length ∨ s.aet ≠ [] then
      triRowOut (mergedAET et s) (s.scanLine : Int) ++ triLoop et fuel (coreStep et s)
    else []

/-- `PolygonFillAlgorithm::generateTriangulation`. -/
def generateTriangulation (polygonVertices : List Point2D) (maxHeight : Nat) :
    List (List Point2D) :=
  if polygonVertices.length < 3 then []
  else
    let edgeTable := buildEdgeTable polygonVertices maxHeight
    let start := firstRow edgeTable
    if edgeTable.length ≤ start then []
    else triLoop edgeTable (loopFuel edgeTable) ⟨start, []⟩

/-- The loop state reached after `n` iterations of the shared core when
the scanline is started at row 0 with an empty AET (rows below the first
non-empty bucket leave the state unchanged except for the row counter, so
this canonical start agrees with the C++ start at `firstRow`). -/
def stateAt (et : List (List EdgeData)) (n : Nat) : FillState :=
  (coreStep et)^[n] ⟨0, []⟩

/-- The active edge table as the emission step sees it at row `n` of the
canonical run. -/
def emissionAET (et : List (List EdgeData)) (n : Nat) : List EdgeData :=
  mergedAET et (stateAt et n)

/-- Vertical translation of a vertex by `k` rows. -/
def translateVertex (k : Int) (v : Point2D) : Point2D :=
  ⟨v.coordinateX, v.coordinateY + k⟩

/-- The effect of a vertical translation on a stored edge: both row
attributes move by `k`, the x data is unchanged. -/
def shiftEdge (k : Int) (e : EdgeData) : EdgeData :=
  ⟨e.maximumY + k, e.currentX, e.inverseSlope, e.minimumY + k⟩

/-- The effect of a vertical translation on an emitted fill primitive. -/
def shiftOut (k : Int) : FillOut → FillOut
  | .span row xStart xEnd => .span (row + k) xStart xEnd
  | .point row x => .point (row + k) x

/-- The effect of a vertical translation by `k` rows (`k ≥ 0`) on the
loop state. -/
def shiftState (k : Nat) (s : FillState) : FillState :=
  ⟨s.scanLine + k, s.aet.map (shiftEdge (k : Int))⟩

/-- An edge as it appears after being walked forward `k` rows
(`currentX += inverseSlope`, `k` times). -/
def advanceBy (e : EdgeData) (k : Nat) : EdgeData :=
  { e with currentX := e.currentX + (k : Rat) * e.inverseSlope }

/-- The edges the table says should be active at the top of iteration `r`
(binned strictly below `r`, not yet expired), each walked forward to row
`r`.  Used as a lower bound for the actual active edge table. -/
def expectedActive (et : List (List EdgeData)) (r : Nat) : List EdgeData :=
  ((etEnum et).filter
      (fun p => decide (p.1 < r ∧ (r : Int) < p.2.maximumY))).map
    (fun p => advanceBy p.2 (r - p.1))

/-- The binning rule exactly as claim C1 words it: for a non-horizontal
edge whose lower endpoint row is in `[0, maxHeight)`, the edge is moved to
`yMin + 1` (with `xAtYMin` advanced one `inverseSlope` step) precisely
when both vertices adjacent to the lower endpoint lie strictly above the
lower endpoint's row; otherwise it stays at `yMin` unadjusted. -/
def strictValleyBin (polygonVertices : List Point2D) (vertexIndex : Nat) : Nat × EdgeData :=
  let n := polygonVertices.length
  let a := polygonVertices.getD vertexIndex default
  let b := polygonVertices.getD ((vertexIndex + 1) % n) default
  let lowIdx := if a.coordinateY ≤ b.coordinateY then vertexIndex else (vertexIndex + 1) % n
  let low := polygonVertices.getD lowIdx default
  let high := if a.coordinateY ≤ b.coordinateY then b else a
  let s := calculateInverseSlope low high
  let n1 := polygonVertices.getD ((lowIdx + n - 1) % n) default
  let n2 := polygonVertices.getD ((lowIdx + 1) % n) default
  if low.coordinateY < n1.coordinateY ∧ low.coordinateY < n2.coordinateY then
    ((low.coordinateY + 1).toNat,
      ⟨high.coordinateY, (low.coordinateX : Rat) + s, s, low.coordinateY + 1⟩)
  else
    (low.coordinateY.toNat, ⟨high.coordinateY, (low.coordinateX : Rat), s, low.coordinateY⟩)

/-- The amended binning rule: the adjustment fires whenever neither vertex
adjacent to the lower endpoint lies strictly below its row (an adjacent
vertex exactly on that row still counts), and an edge whose adjusted row
reaches `maxHeight` is dropped. -/
def lenientValleyBin (polygonVertices : List Point2D) (maxHeight : Nat) (vertexIndex : Nat) :
    Option (Nat × EdgeData) :=
  let n := polygonVertices.length
  let a := polygonVertices.getD vertexIndex default
  let b := polygonVertices.getD ((vertexIndex + 1) % n) default
  let lowIdx := if a.coordinateY ≤ b.coordinateY then vertexIndex else (vertexIndex + 1) % n
  let low := polygonVertices.getD lowIdx default
  let high := if a.coordinateY ≤ b.coordinateY then b else a
  let s := calculateInverseSlope low high
  let n1 := polygonVertices.getD ((lowIdx + n - 1) % n) default
  let n2 := polygonVertices.getD ((lowIdx + 1) % n) default
  if low.coordinateY ≤ n1.coordinateY ∧ low.coordinateY ≤ n2.coordinateY then
    if low.coordinateY + 1 < (maxHeight : Int) then
      some ((low.coordinateY + 1).toNat,
        ⟨high.coordinateY, (low.coordinateX : Rat) + s, s, low.coordinateY + 1⟩)
    else none
  else
    some (low.coordinateY.toNat,
      ⟨high.coordinateY, (low.coordinateX : Rat), s, low.coordinateY⟩)

/-- The axis-aligned square of spec Scenario A. -/
def squareVerts : List Point2D := [⟨10, 10⟩, ⟨50, 10⟩, ⟨50, 50⟩, ⟨10, 50⟩]

/-- The triangle of spec Scenario B. -/
def triangleVerts : List Point2D := [⟨0, 0⟩, ⟨10, 0⟩, ⟨5, 10⟩]

/-- A triangle whose apex sits one row below `maxHeight = 10`: both
non-horizontal edges are valley-adjusted to row 10 and dropped from the
table. -/
def wedgeVerts : List Point2D := [⟨5, 9⟩, ⟨0, 20⟩, ⟨10, 20⟩]

theorem etPush_length (et : List (List EdgeData)) (r : Nat) (e : EdgeData) :
    (etPush et r e).length = et.length := by
  simp [etPush]

theorem applyBin_length (v : List Point2D) (mh : Nat) (et : List (List EdgeData)) (i : Nat) :
    (applyBin v mh et i).length = et.length := by
  unfold applyBin
  cases binOf v mh i with
  | none => rfl
  | some p => exact etPush_length et p.1 p.2

theorem foldl_applyBin_length (v : List Point2D) (mh : Nat) (l : List Nat)
    (et : List (List EdgeData)) :
    (l.foldl (applyBin v mh) et).length = et.length := by
  induction l generalizing et with
  | nil => rfl
  | cons i rest ih => rw [List.foldl_cons, ih, applyBin_length]

theorem buildEdgeTable_length (v : List Point2D) (mh : Nat) :
    (buildEdgeTable v mh).length = mh := by
  unfold buildEdgeTable
  by_cases h : v.length < 2
  · simp [h]
  · simp only [h, if_false, foldl_applyBin_length, List.length_replicate]

/-- C7: `fillPolygon` and `generateTriangulation` return an empty result,
with no failure, on fewer than 3 vertices and likewise whenever
`maxHeight = 0` (where the edge table has no rows at all). -/
theorem degenerate_inputs_empty (polygonVertices : List Point2D) (maxHeight maxWidth : Nat) :
    (polygonVertices.length < 3 →
      fillPolygon polygonVertices maxHeight maxWidth = [] ∧
      generateTriangulation polygonVertices maxHeight = []) ∧
    (fillPolygon polygonVertices 0 maxWidth = [] ∧
      generateTriangulation polygonVertices 0 = []) := by
  constructor
  · intro h
    constructor
    · simp [fillPolygon, h]
    · simp [generateTriangulation, h]
  · have hlen : (buildEdgeTable polygonVertices 0).length = 0 := buildEdgeTable_length _ 0
    constructor
    · unfold fillPolygon
      by_cases h : polygonVertices.length < 3
      · simp [h]
      · simp [h, hlen]
    · unfold generateTriangulation
      by_cases h : polygonVertices.length < 3
      · simp [h]
      · simp [h, hlen]

/-- C7 witness: a two-vertex polygon and a `maxHeight = 0` call both yield
empty results. -/
theorem degenerate_inputs_empty_witness :
    ([(⟨0, 0⟩ : Point2D), ⟨5, 5⟩].length < 3 ∧
      fillPolygon [⟨0, 0⟩, ⟨5, 5⟩] 40 40 = [] ∧
      generateTriangulation [⟨0, 0⟩, ⟨5, 5⟩] 40 = []) ∧
    (fillPolygon [⟨0, 0⟩, ⟨5, 5⟩] 0 40 = [] ∧
      generateTriangulation [⟨0, 0⟩, ⟨5, 5⟩] 0 = []) :=
  ⟨⟨by decide, (degenerate_inputs_empty [⟨0, 0⟩, ⟨5, 5⟩] 40 40).1 (by decide)⟩,
    (degenerate_inputs_empty [⟨0, 0⟩, ⟨5, 5⟩] 7 40).2⟩

/-- C8: each consecutive AET pair `(edgeA, edgeB)` at row `y` yields
exactly the two triangles of the height-1 trapezoid between rows `y` and
`y + 1`: `(xA, y), (xB, y), (xA', y+1)` and `(xB, y), (xB', y+1),
(xA', y+1)`, where `xA' = xA + inverseSlopeA` and `xB' = xB +
inverseSlopeB`, every x truncated to an integer vertex coordinate. -/
theorem triRowOut_pair_trapezoid (edgeA edgeB : EdgeData) (rest : List EdgeData) (y : Int) :
    triRowOut (edgeA :: edgeB :: rest) y =
      [(⟨ratTrunc edgeA.currentX, y⟩ : Point2D), ⟨ratTrunc edgeB.currentX, y⟩,
          ⟨ratTrunc (edgeA.currentX + edgeA.inverseSlope), y + 1⟩] ::
        [(⟨ratTrunc edgeB.currentX, y⟩ : Point2D),
          ⟨ratTrunc (edgeB.currentX + edgeB.inverseSlope), y + 1⟩,
          ⟨ratTrunc (edgeA.currentX + edgeA.inverseSlope), y + 1⟩] ::
        triEmitPairs y rest := by
  have hlen : 2 ≤ (edgeA :: edgeB :: rest).length := by
    simp [List.length_cons]
  simp [triRowOut, hlen, triEmitPairs]

/-- C2 counterexample: the claim predicts a span `{10, 50}` at row 10 for
the Scenario A square, but row 10 holds only the bottom horizontal edge
(both verticals are valley-adjusted to row 11), so no span is emitted
there. -/
theorem fill_square_no_span_at_row_ten :
    FillOut.span 10 10 50 ∉ fillPolygon squareVerts 60 60 := by
  with_unfolding_all decide

/-- C2 amended: filling the Scenario A square with `maxHeight = 60`,
`maxWidth = 60` produces exactly one span per row for rows 11 through 49
inclusive, each `{xStart := 10, xEnd := 50}`, and nothing else (row 10 is
skipped because both non-horizontal edges enter only at row 11). -/
theorem fill_square_spans_rows_eleven_to_fortynine :
    fillPolygon squareVerts 60 60 =
      (List.range 39).map (fun i => FillOut.span ((11 : Int) + i) 10 50) := by
  with_unfolding_all decide

/-- C1 counterexample: for the triangle `(0,0), (10,0), (5,10)` and its
edge 1 (from `(10,0)` up to `(5,10)`), the lower endpoint `(10,0)` has
adjacent vertices `(0,0)` — on the same row, not strictly above — and
`(5,10)`.  The claim therefore predicts no adjustment (bin at row 0 with
x = 10), but the code adjusts, binning at row 1 with x advanced to 19/2. -/
theorem binOf_strict_valley_fails :
    binOf triangleVerts 11 1 = some (1, ⟨10, 19/2, -1/2, 1⟩) ∧
    strictValleyBin triangleVerts 1 = (0, ⟨10, 10, -1/2, 0⟩) := by
  with_unfolding_all decide

/-- C1 amended: for a non-horizontal edge whose lower endpoint row lies in
`[0, maxHeight)`, `buildEdgeTable` applies the local-extremum adjustment
exactly when neither vertex adjacent to the lower endpoint lies strictly
below that row (an adjacent vertex exactly on the row counts as well, so
the condition is at-or-above rather than strictly-above); an adjusted edge
whose new row reaches `maxHeight` is dropped, and otherwise the edge is
binned at `yMin` with its starting x unadjusted. -/
theorem binOf_valley_adjustment_at_or_above (polygonVertices : List Point2D)
    (maxHeight : Nat) (i : Nat) (hi : i < polygonVertices.length)
    (hnh : (polygonVertices.getD i default).coordinateY ≠
      (polygonVertices.getD ((i + 1) % polygonVertices.length) default).coordinateY)
    (hlo : 0 ≤ min (polygonVertices.getD i default).coordinateY
      (polygonVertices.getD ((i + 1) % polygonVertices.length) default).coordinateY)
    (hhi : min (polygonVertices.getD i default).coordinateY
      (polygonVertices.getD ((i + 1) % polygonVertices.length) default).coordinateY <
      (maxHeight : Int)) :
    binOf polygonVertices maxHeight i = lenientValleyBin polygonVertices maxHeight i := by
  simp only [List.getD_eq_getElem?_getD] at hnh hlo hhi
  have hA : ((i + 1) % polygonVertices.length + polygonVertices.length - 1) %
      polygonVertices.length = i := by
    rcases Nat.lt_or_ge (i + 1) polygonVertices.length with h | h
    · rw [Nat.mod_eq_of_lt h]
      have h2 : i + 1 + polygonVertices.length - 1 = polygonVertices.length + i := by omega
      rw [h2, Nat.add_mod_left, Nat.mod_eq_of_lt hi]
    · have h1 : (i + 1) % polygonVertices.length = 0 := by
        have h0 : i + 1 = polygonVertices.length := by omega
        rw [h0, Nat.mod_self]
      rw [h1]
      have h3 : 0 + polygonVertices.length - 1 = i := by omega
      rw [h3, Nat.mod_eq_of_lt hi]
  have hB : ((i + 1) % polygonVertices.length + 1) % polygonVertices.length =
      (i + 2) % polygonVertices.length := by
    rcases Nat.lt_or_ge (i + 1) polygonVertices.length with h | h
    · rw [Nat.mod_eq_of_lt h]
    · have h1 : (i + 1) % polygonVertices.length = 0 := by
        have h0 : i + 1 = polygonVertices.length := by omega
        rw [h0, Nat.mod_self]
      have h3 : i + 2 = polygonVertices.length + 1 := by omega
      rw [h1, h3, Nat.add_mod_left]
  rcases lt_or_gt_of_ne hnh with hab | hab
  · have hmin : min (polygonVertices[i]?.getD default).coordinateY
        (polygonVertices[(i + 1) % polygonVertices.length]?.getD default).coordinateY =
        (polygonVertices[i]?.getD default).coordinateY := min_eq_left (le_of_lt hab)
    rw [hmin] at hlo hhi
    have hnswap : ¬ ((polygonVertices[(i + 1) % polygonVertices.length]?.getD
        default).coordinateY < (polygonVertices[i]?.getD default).coordinateY) :=
      not_lt_of_gt hab
    have hle : (polygonVertices[i]?.getD default).coordinateY ≤
        (polygonVertices[(i + 1) % polygonVertices.length]?.getD default).coordinateY :=
      le_of_lt hab
    by_cases hp : (polygonVertices[(i + polygonVertices.length - 1) % polygonVertices.length]?.getD default).coordinateY <
        (polygonVertices[i]?.getD default).coordinateY
    · have hnp : ¬ (polygonVertices[i]?.getD default).coordinateY ≤
          (polygonVertices[(i + polygonVertices.length - 1) % polygonVertices.length]?.getD default).coordinateY := not_le_of_gt hp
      simp [binOf, lenientValleyBin, hnh, hnswap, hle, hp, hnp, hlo, hhi]
    · have hnp : (polygonVertices[i]?.getD default).coordinateY ≤
          (polygonVertices[(i + polygonVertices.length - 1) % polygonVertices.length]?.getD default).coordinateY := not_lt.mp hp
      have hlo1 : (0 : Int) ≤ (polygonVertices[i]?.getD default).coordinateY + 1 := by omega
      by_cases hm : (polygonVertices[i]?.getD default).coordinateY + 1 < (maxHeight : Int)
      · simp [binOf, lenientValleyBin, hnh, hnswap, hle, hp, hnp, hlo, hhi, hlo1, hm]
      · simp [binOf, lenientValleyBin, hnh, hnswap, hle, hp, hnp, hlo, hhi, hlo1, hm]
  · have hmin : min (polygonVertices[i]?.getD default).coordinateY
        (polygonVertices[(i + 1) % polygonVertices.length]?.getD default).coordinateY =
        (polygonVertices[(i + 1) % polygonVertices.length]?.getD default).coordinateY :=
      min_eq_right (le_of_lt hab)
    rw [hmin] at hlo hhi
    have hswap : (polygonVertices[(i + 1) % polygonVertices.length]?.getD
        default).coordinateY < (polygonVertices[i]?.getD default).coordinateY := hab
    have hne : (polygonVertices[(i + 1) % polygonVertices.length]?.getD
        default).coordinateY ≠ (polygonVertices[i]?.getD default).coordinateY := ne_of_lt hab
    have hnle : ¬ ((polygonVertices[i]?.getD default).coordinateY ≤
        (polygonVertices[(i + 1) % polygonVertices.length]?.getD default).coordinateY) :=
      not_le_of_gt hab
    have hlen1 : (polygonVertices[(i + 1) % polygonVertices.length]?.getD
        default).coordinateY ≤ (polygonVertices[i]?.getD default).coordinateY := le_of_lt hab
    have hnlt : ¬ ((polygonVertices[i]?.getD default).coordinateY <
        (polygonVertices[(i + 1) % polygonVertices.length]?.getD default).coordinateY) :=
      not_lt_of_gt hab
    by_cases hq : (polygonVertices[(i + 2) % polygonVertices.length]?.getD
        default).coordinateY <
        (polygonVertices[(i + 1) % polygonVertices.length]?.getD default).coordinateY
    · have hnq : ¬ ((polygonVertices[(i + 1) % polygonVertices.length]?.getD
          default).coordinateY ≤
          (polygonVertices[(i + 2) % polygonVertices.length]?.getD default).coordinateY) :=
        not_le_of_gt hq
      simp [binOf, lenientValleyBin, hnh, hswap, hne, hnle, hnlt, hlen1, hq, hnq, hlo, hhi,
        hA, hB]
    · have hnq : (polygonVertices[(i + 1) % polygonVertices.length]?.getD
          default).coordinateY ≤
          (polygonVertices[(i + 2) % polygonVertices.length]?.getD default).coordinateY :=
        not_lt.mp hq
      have hlo1 : (0 : Int) ≤ (polygonVertices[(i + 1) % polygonVertices.length]?.getD
          default).coordinateY + 1 := by omega
      by_cases hm : (polygonVertices[(i + 1) % polygonVertices.length]?.getD
          default).coordinateY + 1 < (maxHeight : Int)
      · simp [binOf, lenientValleyBin, hnh, hswap, hne, hnle, hnlt, hlen1, hq, hnq, hlo, hhi,
          hlo1, hm, hA, hB]
      · simp [binOf, lenientValleyBin, hnh, hswap, hne, hnle, hnlt, hlen1, hq, hnq, hlo, hhi,
          hlo1, hm, hA, hB]

/-- C1 witness: the amended rule evaluated on edge 1 of the Scenario A
square (a vertical edge whose lower endpoint has one adjacent vertex on
its own row): the code and the at-or-above rule agree, both adjusting. -/
theorem binOf_valley_adjustment_at_or_above_witness :
    (1 < squareVerts.length ∧
      (squareVerts.getD 1 default).coordinateY ≠
        (squareVerts.getD (2 % squareVerts.length) default).coordinateY) ∧
    binOf squareVerts 60 1 = lenientValleyBin squareVerts 60 1 :=
  ⟨⟨by decide, by with_unfolding_all decide⟩,
    binOf_valley_adjustment_at_or_above squareVerts 60 1 (by decide)
      (by with_unfolding_all decide) (by with_unfolding_all decide)
      (by with_unfolding_all decide)⟩

theorem mem_insertByX {a e : EdgeData} {l : List EdgeData} :
    a ∈ insertByX e l ↔ a = e ∨ a ∈ l := by
  induction l with
  | nil => simp [insertByX]
  | cons f rest ih =>
    unfold insertByX
    by_cases h : e.currentX < f.currentX
    · simp [h, List.mem_cons]
    · simp [h, List.mem_cons, ih]
      tauto

theorem mem_sortByX {a : EdgeData} {l : List EdgeData} : a ∈ sortByX l ↔ a ∈ l := by
  induction l with
  | nil => simp [sortByX]
  | cons e rest ih => simp [sortByX, mem_insertByX, ih]

theorem insertByX_perm (e : EdgeData) (l : List EdgeData) : List.Perm (insertByX e l) (e :: l) := by
  induction l with
  | nil => rfl
  | cons f rest ih =>
    unfold insertByX
    by_cases h : e.currentX < f.currentX
    · simp [h]
    · simp only [h, if_false]
      exact (ih.cons f).trans (List.Perm.swap e f rest)

theorem sortByX_perm (l : List EdgeData) : List.Perm (sortByX l) l := by
  induction l with
  | nil => rfl
  | cons e rest ih => exact (insertByX_perm e (sortByX rest)).trans (ih.cons e)

theorem stateAt_succ (et : List (List EdgeData)) (n : Nat) :
    stateAt et (n + 1) = coreStep et (stateAt et n) :=
  Function.iterate_succ_apply' (coreStep et) n ⟨0, []⟩

theorem stateAt_scanLine (et : List (List EdgeData)) (n : Nat) :
    (stateAt et n).scanLine = n := by
  induction n with
  | zero => rfl
  | succ n ih => rw [stateAt_succ]; simp [coreStep, ih]

theorem stateAt_aet_maxY (et : List (List EdgeData)) (n : Nat) (e : EdgeData)
    (h : e ∈ (stateAt et n).aet) : (n : Int) < e.maximumY := by
  cases n with
  | zero => simp [stateAt] at h
  | succ n =>
    rw [stateAt_succ] at h
    simp only [coreStep] at h
    have h2 := (List.mem_filter.mp h).2
    rw [stateAt_scanLine] at h2
    simpa using h2

theorem getD_etPush (et : List (List EdgeData)) (r r2 : Nat) (e : EdgeData) :
    (etPush et r2 e).getD r [] =
      if r2 = r ∧ r2 < et.length then et.getD r [] ++ [e] else et.getD r [] := by
  unfold etPush
  by_cases h1 : r2 = r
  · subst h1
    by_cases h2 : r2 < et.length
    · simp [List.getD_eq_getElem?_getD, List.getElem?_set, h2]
    · have hr : et.length ≤ r2 := Nat.le_of_not_lt h2
      have hr2 : (et.set r2 (et.getD r2 [] ++ [e])).length ≤ r2 := by
        simpa using hr
      rw [if_neg (fun hc => h2 hc.2), List.getD_eq_default _ _ hr2,
        List.getD_eq_default _ _ hr]
  · simp [List.getD_eq_getElem?_getD, List.getElem?_set_ne h1, h1]

theorem getD_replicate_nil (n r : Nat) :
    (List.replicate n ([] : List EdgeData)).getD r [] = [] := by
  rw [List.getD_eq_getElem?_getD]
  rcases h : (List.replicate n ([] : List EdgeData))[r]? with _ | b
  · rfl
  · have hb : b ∈ List.replicate n ([] : List EdgeData) := by
      exact List.getElem?_mem h
    rw [List.eq_of_mem_replicate hb]
    rfl

theorem mem_foldl_applyBin (v : List Point2D) (mh : Nat) (l : List Nat)
    (et : List (List EdgeData)) (r : Nat) (e : EdgeData)
    (h : e ∈ (l.foldl (applyBin v mh) et).getD r []) :
    e ∈ et.getD r [] ∨ ∃ i ∈ l, binOf v mh i = some (r, e) := by
  induction l generalizing et with
  | nil => exact Or.inl h
  | cons i rest ih =>
    rw [List.foldl_cons] at h
    rcases ih (applyBin v mh et i) h with h1 | h1
    · unfold applyBin at h1
      cases hb : binOf v mh i with
      | none => rw [hb] at h1; exact Or.inl h1
      | some p =>
        obtain ⟨r2, e2⟩ := p
        rw [hb] at h1
        rw [getD_etPush] at h1
        split at h1
        · rename_i hcond
          rcases List.mem_append.mp h1 with h2 | h2
          · exact Or.inl h2
          · have he : e = e2 := by simpa using h2
            refine Or.inr ⟨i, List.mem_cons_self i rest, ?_⟩
            rw [hb, he]
            have hr2 : r2 = r := hcond.1
            rw [hr2]
        · exact Or.inl h1
    · obtain ⟨j, hj, hbj⟩ := h1
      exact Or.inr ⟨j, List.mem_cons_of_mem _ hj, hbj⟩

theorem buildEdgeTable_mem (v : List Point2D) (mh : Nat) (r : Nat) (e : EdgeData)
    (h : e ∈ (buildEdgeTable v mh).getD r []) :
    ∃ i, i < v.length ∧ binOf v mh i = some (r, e) := by
  unfold buildEdgeTable at h
  by_cases h2 : v.length < 2
  · simp only [h2, if_true] at h
    rw [getD_replicate_nil] at h
    simp at h
  · simp only [h2, if_false] at h
    rcases mem_foldl_applyBin v mh _ _ r e h with h3 | h3
    · rw [getD_replicate_nil] at h3
      simp at h3
    · obtain ⟨i, hi, hb⟩ := h3
      exact ⟨i, List.mem_range.mp hi, hb⟩

theorem getD_mem_of_lt {v : List Point2D} {i : Nat} (h : i < v.length) :
    v.getD i default ∈ v := by
  rw [List.getD_eq_getElem v default h]
  exact List.getElem_mem h

theorem binOf_some_wf (v : List Point2D) (mh : Nat) (i : Nat) (hi : i < v.length)
    (r : Nat) (e : EdgeData) (h : binOf v mh i = some (r, e)) :
    e.minimumY = (r : Int) ∧ (r : Int) ≤ e.maximumY ∧ r < mh ∧
      (∃ w ∈ v, e.maximumY = w.coordinateY) ∧ (∃ w ∈ v, w.coordinateY ≤ e.minimumY) := by
  have hn : 0 < v.length := Nat.lt_of_le_of_lt (Nat.zero_le i) hi
  have hmem1 : v[i]?.getD default ∈ v := by
    rw [← List.getD_eq_getElem?_getD]
    exact getD_mem_of_lt hi
  have hmem2 : v[(i + 1) % v.length]?.getD default ∈ v := by
    rw [← List.getD_eq_getElem?_getD]
    exact getD_mem_of_lt (Nat.mod_lt _ hn)
  simp only [binOf, List.getD_eq_getElem?_getD] at h
  split at h
  · rename_i hhoriz
    split at h
    · rename_i hrange
      simp only [Option.some_inj, Prod.mk.injEq] at h
      obtain ⟨hr, he⟩ := h
      subst he
      subst hr
      have hcast : ((v[i]?.getD default).coordinateY.toNat : Int) =
          (v[i]?.getD default).coordinateY := Int.toNat_of_nonneg hrange.1
      refine ⟨hcast.symm, hcast.le.trans (le_of_eq hhoriz), ?_,
        ⟨v[(i + 1) % v.length]?.getD default, hmem2, rfl⟩,
        ⟨v[i]?.getD default, hmem1, le_refl _⟩⟩
      omega
    · exact absurd h (by simp)
  · rename_i hhoriz
    split_ifs at h
    all_goals (dsimp only at *)
    all_goals (simp only [Option.some_inj, Prod.mk.injEq] at h)
    all_goals (obtain ⟨hr, he⟩ := h; subst he; subst hr)
    all_goals (refine ⟨by dsimp only; omega, by dsimp only; omega, by omega, ?_, ?_⟩)
    all_goals
      first
      | exact ⟨_, hmem1, rfl⟩
      | exact ⟨_, hmem2, rfl⟩
      | exact ⟨_, hmem1, by dsimp only; omega⟩
      | exact ⟨_, hmem2, by dsimp only; omega⟩

theorem buildEdgeTable_wf (v : List Point2D) (mh : Nat) (r : Nat) (e : EdgeData)
    (h : e ∈ (buildEdgeTable v mh).getD r []) :
    e.minimumY = (r : Int) ∧ (r : Int) ≤ e.maximumY ∧ r < mh ∧
      (∃ w ∈ v, e.maximumY = w.coordinateY) ∧ (∃ w ∈ v, w.coordinateY ≤ e.minimumY) := by
  obtain ⟨i, hi, hb⟩ := buildEdgeTable_mem v mh r e h
  exact binOf_some_wf v mh i hi r e hb

/-- C4 counterexample: at row 10 of the Scenario A square's run, the
emission-time active edge table holds the bottom horizontal edge, whose
`yMax` is 10 = currentScanLine, so `currentScanLine < yMax` fails. -/
theorem emissionAET_strict_lt_fails :
    ¬ (∀ e ∈ emissionAET (buildEdgeTable squareVerts 60) 10, (10 : Int) < e.maximumY) := by
  with_unfolding_all decide

/-- C4 amended: at every emission step of the shared traversal core, every
edge in the active edge table satisfies `currentScanLine ≤ yMax`, and the
strict bound `currentScanLine < yMax` holds for every edge except possibly
at the single row at which the edge entered (its stored bucket row
`minimumY`); horizontal edges (and height-one valley-adjusted edges) have
`yMax` equal to their bucket row and are dropped right after that row. -/
theorem emissionAET_le_yMax (verts : List Point2D) (maxHeight : Nat) (n : Nat) (e : EdgeData)
    (hmem : e ∈ emissionAET (buildEdgeTable verts maxHeight) n) :
    (n : Int) ≤ e.maximumY ∧ ((n : Int) ≠ e.minimumY → (n : Int) < e.maximumY) := by
  unfold emissionAET mergedAET at hmem
  rw [mem_sortByX, stateAt_scanLine] at hmem
  rcases List.mem_append.mp hmem with h | h
  · have hlt := stateAt_aet_maxY _ n e h
    exact ⟨le_of_lt hlt, fun _ => hlt⟩
  · obtain ⟨h1, h2, -, -, -⟩ := buildEdgeTable_wf verts maxHeight n e h
    exact ⟨h2, fun hne => absurd h1.symm hne⟩

/-- C4 witness: the horizontal bottom edge of the square at its entry
row 10, where only the non-strict bound holds. -/
theorem emissionAET_le_yMax_witness :
    (⟨10, 10, 0, 10⟩ : EdgeData) ∈ emissionAET (buildEdgeTable squareVerts 60) 10 ∧
    ((10 : Nat) : Int) ≤ (10 : Int) ∧
      (((10 : Nat) : Int) ≠ (10 : Int) → ((10 : Nat) : Int) < (10 : Int)) :=
  ⟨by with_unfolding_all decide,
    emissionAET_le_yMax squareVerts 60 10 ⟨10, 10, 0, 10⟩ (by with_unfolding_all decide)⟩

theorem emitPairs_last_point (maxHeight maxWidth : Nat) (y : Int) :
    ∀ (aet : List EdgeData) (lastEdge : EdgeData), aet.getLast? = some lastEdge →
      aet.length % 2 = 1 →
      0 ≤ ratTrunc (lastEdge.currentX + 1/2) →
      ratTrunc (lastEdge.currentX + 1/2) < (maxWidth : Int) →
      0 ≤ y → y < (maxHeight : Int) →
      FillOut.point y (ratTrunc (lastEdge.currentX + 1/2)) ∈
        emitPairs maxHeight maxWidth y aet
  | [], _ => by simp
  | [e], lastEdge => by
    intro hlast hodd h1 h2 h3 h4
    simp only [List.getLast?_singleton, Option.some_inj] at hlast
    subst hlast
    have hb : 0 ≤ ratTrunc (e.currentX + 1/2) ∧
        ratTrunc (e.currentX + 1/2) < (maxWidth : Int) ∧
        0 ≤ y ∧ y < (maxHeight : Int) := ⟨h1, h2, h3, h4⟩
    simp only [emitPairs]
    rw [if_pos hb]
    exact List.mem_singleton_self _
  | e1 :: e2 :: rest, lastEdge => by
    intro hlast hodd h1 h2 h3 h4
    have hrest : rest.length % 2 = 1 := by
      simp only [List.length_cons] at hodd
      omega
    have hne : rest ≠ [] := by
      intro hcon
      rw [hcon] at hrest
      simp at hrest
    have hlast2 : rest.getLast? = some lastEdge := by
      rcases rest with _ | ⟨r, rs⟩
      · exact absurd rfl hne
      · rw [List.getLast?_cons_cons, List.getLast?_cons_cons] at hlast
        exact hlast
    have ih := emitPairs_last_point maxHeight maxWidth y rest lastEdge hlast2 hrest h1 h2 h3 h4
    unfold emitPairs
    exact List.mem_append_right _ ih

/-- C3 counterexample: an active edge table holding exactly one edge (odd
count, as at row 10 of the Scenario A square) emits nothing at all, even
though the rounded x of its single edge lies inside the raster: the
odd-parity point branch sits inside the `size >= 2` guard. -/
theorem fillRowOut_single_edge_emits_nothing :
    fillRowOut [⟨10, 10, 0, 10⟩] 10 60 60 = [] ∧
    ([(⟨10, 10, 0, 10⟩ : EdgeData)].length % 2 = 1 ∧
      0 ≤ ratTrunc ((10 : Rat) + 1/2) ∧ ratTrunc ((10 : Rat) + 1/2) < 60 ∧
      (0 : Int) ≤ 10 ∧ (10 : Int) < 60) := by
  with_unfolding_all decide

/-- C3 amended: a row whose AET holds exactly one edge emits nothing; at a
row whose AET holds an odd number of at least three edges, the last
unpaired edge emits a single point at its rounded current x, subject to
the raster bounds. -/
theorem fillRowOut_odd_parity_point (aet : List EdgeData) (lastEdge : EdgeData) (y : Int)
    (maxHeight maxWidth : Nat) :
    (aet.length = 1 → fillRowOut aet y maxHeight maxWidth = []) ∧
    (aet.getLast? = some lastEdge → aet.length % 2 = 1 → 2 ≤ aet.length →
      0 ≤ ratTrunc (lastEdge.currentX + 1/2) →
      ratTrunc (lastEdge.currentX + 1/2) < (maxWidth : Int) →
      0 ≤ y → y < (maxHeight : Int) →
      FillOut.point y (ratTrunc (lastEdge.currentX + 1/2)) ∈
        fillRowOut aet y maxHeight maxWidth) := by
  constructor
  · intro h
    simp [fillRowOut, h]
  · intro hlast hodd hlen h1 h2 h3 h4
    unfold fillRowOut
    rw [if_pos hlen]
    exact emitPairs_last_point maxHeight maxWidth y aet lastEdge hlast hodd h1 h2 h3 h4

/-- C3 witness: a three-edge AET emits the point of its last edge; a
one-edge AET emits nothing. -/
theorem fillRowOut_odd_parity_point_witness :
    fillRowOut [⟨9, 4, 0, 0⟩] 2 10 10 = [] ∧
    FillOut.point 2 7 ∈
      fillRowOut [⟨9, 1, 0, 0⟩, ⟨9, 4, 0, 0⟩, ⟨9, 7, 0, 0⟩] 2 10 10 := by
  constructor
  · exact (fillRowOut_odd_parity_point [⟨9, 4, 0, 0⟩] ⟨9, 4, 0, 0⟩ 2 10 10).1 (by decide)
  · have hmem := (fillRowOut_odd_parity_point [⟨9, 1, 0, 0⟩, ⟨9, 4, 0, 0⟩, ⟨9, 7, 0, 0⟩]
      ⟨9, 7, 0, 0⟩ 2 10 10).2 (by with_unfolding_all decide)
      (by decide) (by decide) (by with_unfolding_all decide)
      (by with_unfolding_all decide) (by decide) (by decide)
    have h7 : ratTrunc ((⟨9, 7, 0, 0⟩ : EdgeData).currentX + 1/2) = 7 := by
      with_unfolding_all decide
    rw [h7] at hmem
    exact hmem

theorem spanClamp_bounds (maxWidth : Nat) (x1 x2 : Int) :
    0 ≤ (spanClamp maxWidth x1 x2).1 ∧
      (spanClamp maxWidth x1 x2).2 ≤ (maxWidth : Int) - 1 := by
  unfold spanClamp
  dsimp only
  refine ⟨?_, ?_⟩ <;> (repeat' split) <;> omega

theorem emitPairs_bounds (maxHeight maxWidth : Nat) (y : Int) :
    ∀ (aet : List EdgeData) (o : FillOut), o ∈ emitPairs maxHeight maxWidth y aet →
      (∀ row x1 x2, o = FillOut.span row x1 x2 →
        0 ≤ row ∧ row < (maxHeight : Int) ∧ 0 ≤ x1 ∧ x1 ≤ x2 ∧ x2 ≤ (maxWidth : Int) - 1) ∧
      (∀ row x, o = FillOut.point row x →
        0 ≤ row ∧ row < (maxHeight : Int) ∧ 0 ≤ x ∧ x < (maxWidth : Int))
  | [], o => by simp [emitPairs]
  | [e], o => by
    intro ho
    simp only [emitPairs] at ho
    split at ho
    · rename_i hcond
      simp only [List.mem_singleton] at ho
      subst ho
      constructor
      · intro row x1 x2 hcon
        exact absurd hcon (by simp)
      · intro row x hx
        simp only [FillOut.point.injEq] at hx
        obtain ⟨h1, h2⟩ := hx
        subst h1
        subst h2
        exact ⟨hcond.2.2.1, hcond.2.2.2, hcond.1, hcond.2.1⟩
    · simp at ho
  | e1 :: e2 :: rest, o => by
    intro ho
    simp only [emitPairs] at ho
    rcases List.mem_append.mp ho with h | h
    · split at h
      · rename_i hcond
        simp only [List.mem_singleton] at h
        subst h
        constructor
        · intro row x1 x2 hsp
          simp only [FillOut.span.injEq] at hsp
          obtain ⟨hy, hx1, hx2⟩ := hsp
          subst hy
          subst hx1
          subst hx2
          obtain ⟨hb1, hb2⟩ := spanClamp_bounds maxWidth (ratTrunc (e1.currentX + 1/2))
            (ratTrunc (e2.currentX + 1/2))
          exact ⟨hcond.2.1, hcond.2.2, hb1, hcond.1, hb2⟩
        · intro row x hcon
          exact absurd hcon (by simp)
      · simp at h
    · exact emitPairs_bounds maxHeight maxWidth y rest o h

theorem fillRowOut_bounds (aet : List EdgeData) (y : Int) (maxHeight maxWidth : Nat)
    (o : FillOut) (ho : o ∈ fillRowOut aet y maxHeight maxWidth) :
    (∀ row x1 x2, o = FillOut.span row x1 x2 →
      0 ≤ row ∧ row < (maxHeight : Int) ∧ 0 ≤ x1 ∧ x1 ≤ x2 ∧ x2 ≤ (maxWidth : Int) - 1) ∧
    (∀ row x, o = FillOut.point row x →
      0 ≤ row ∧ row < (maxHeight : Int) ∧ 0 ≤ x ∧ x < (maxWidth : Int)) := by
  unfold fillRowOut at ho
  split at ho
  · exact emitPairs_bounds maxHeight maxWidth y aet o ho
  · simp at ho

theorem fillLoop_bounds (et : List (List EdgeData)) (maxHeight maxWidth : Nat) :
    ∀ (fuel : Nat) (s : FillState) (o : FillOut),
      o ∈ fillLoop et maxHeight maxWidth fuel s →
      (∀ row x1 x2, o = FillOut.span row x1 x2 →
        0 ≤ row ∧ row < (maxHeight : Int) ∧ 0 ≤ x1 ∧ x1 ≤ x2 ∧ x2 ≤ (maxWidth : Int) - 1) ∧
      (∀ row x, o = FillOut.point row x →
        0 ≤ row ∧ row < (maxHeight : Int) ∧ 0 ≤ x ∧ x < (maxWidth : Int))
  | 0, s, o => by simp [fillLoop]
  | fuel + 1, s, o => by
    intro ho
    unfold fillLoop at ho
    split at ho
    · rcases List.mem_append.mp ho with h | h
      · exact fillRowOut_bounds _ _ _ _ o h
      · exact fillLoop_bounds et maxHeight maxWidth fuel _ o h
    · simp at ho

/-- C9: every span emitted by `fillPolygon` lies inside the raster
(`0 ≤ row < maxHeight`, `0 ≤ x1 ≤ x2 ≤ maxWidth - 1`), every odd-parity
point satisfies `0 ≤ x < maxWidth` at a row in `[0, maxHeight)`, and a
pair whose clamped interval is empty contributes nothing. -/
theorem fill_outputs_within_raster (polygonVertices : List Point2D)
    (maxHeight maxWidth : Nat) :
    (∀ o ∈ fillPolygon polygonVertices maxHeight maxWidth,
      (∀ row x1 x2, o = FillOut.span row x1 x2 →
        0 ≤ row ∧ row < (maxHeight : Int) ∧ 0 ≤ x1 ∧ x1 ≤ x2 ∧ x2 ≤ (maxWidth : Int) - 1) ∧
      (∀ row x, o = FillOut.point row x →
        0 ≤ row ∧ row < (maxHeight : Int) ∧ 0 ≤ x ∧ x < (maxWidth : Int))) ∧
    (∀ (e1 e2 : EdgeData) (rest : List EdgeData) (y : Int),
      ¬ ((spanClamp maxWidth (ratTrunc (e1.currentX + 1/2))
            (ratTrunc (e2.currentX + 1/2))).1 ≤
          (spanClamp maxWidth (ratTrunc (e1.currentX + 1/2))
            (ratTrunc (e2.currentX + 1/2))).2) →
      emitPairs maxHeight maxWidth y (e1 :: e2 :: rest) =
        emitPairs maxHeight maxWidth y rest) := by
  constructor
  · intro o ho
    simp only [fillPolygon] at ho
    split at ho
    · simp at ho
    · split at ho
      · simp at ho
      · exact fillLoop_bounds _ maxHeight maxWidth _ _ o ho
  · intro e1 e2 rest y hempty
    simp only [emitPairs]
    rw [if_neg (fun hc => hempty hc.1)]
    rfl

/-- C9 witness: the first span of the Scenario A square fill satisfies the
raster bounds. -/
theorem fill_outputs_within_raster_witness :
    FillOut.span 11 10 50 ∈ fillPolygon squareVerts 60 60 ∧
    (0 ≤ (11 : Int) ∧ (11 : Int) < 60 ∧ 0 ≤ (10 : Int) ∧ (10 : Int) ≤ 50 ∧
      (50 : Int) ≤ 60 - 1) :=
  ⟨by with_unfolding_all decide,
    ((fill_outputs_within_raster squareVerts 60 60).1 (FillOut.span 11 10 50)
      (by with_unfolding_all decide)).1 11 10 50 rfl⟩

theorem foldl_max_le_init (l : List (Nat × EdgeData)) (acc : Nat) :
    acc ≤ l.foldl (fun m p => max m p.2.maximumY.toNat) acc := by
  induction l generalizing acc with
  | nil => exact le_refl acc
  | cons q rest ih => exact le_trans (Nat.le_max_left _ _) (ih _)

theorem mem_le_foldl_max (l : List (Nat × EdgeData)) (acc : Nat) (p : Nat × EdgeData)
    (hp : p ∈ l) :
    p.2.maximumY.toNat ≤ l.foldl (fun m q => max m q.2.maximumY.toNat) acc := by
  induction l generalizing acc with
  | nil => simp at hp
  | cons q rest ih =>
    rcases List.mem_cons.mp hp with h | h
    · subst h
      exact le_trans (Nat.le_max_right acc _) (foldl_max_le_init rest _)
    · exact ih _ h

theorem etMaxYBound_le (et : List (List EdgeData)) (p : Nat × EdgeData)
    (hp : p ∈ etEnum et) : p.2.maximumY ≤ (etMaxYBound et : Int) :=
  le_trans (Int.self_le_toNat _) (by exact_mod_cast mem_le_foldl_max _ 0 p hp)

theorem mem_etEnumFrom_of_bucket :
    ∀ (et : List (List EdgeData)) (k r : Nat) (e : EdgeData),
      e ∈ et.getD r [] → r < et.length → (k + r, e) ∈ etEnumFrom k et
  | [], _, r, e => by simp
  | b :: rest, k, 0, e => by
    intro he _
    simp only [List.getD_cons_zero] at he
    unfold etEnumFrom
    exact List.mem_append_left _ (List.mem_map.mpr ⟨e, he, rfl⟩)
  | b :: rest, k, r + 1, e => by
    intro he hr
    simp only [List.getD_cons_succ] at he
    simp only [List.length_cons] at hr
    have hmem := mem_etEnumFrom_of_bucket rest (k + 1) r e he (by omega)
    unfold etEnumFrom
    refine List.mem_append_right _ ?_
    have harith : k + (r + 1) = k + 1 + r := by omega
    rw [harith]
    exact hmem

theorem mem_etEnum_of_bucket (et : List (List EdgeData)) (r : Nat) (e : EdgeData)
    (he : e ∈ et.getD r []) (hr : r < et.length) : (r, e) ∈ etEnum et := by
  have hmem := mem_etEnumFrom_of_bucket et 0 r e he hr
  simpa using hmem

theorem mergedAET_maxY_bounded (et : List (List EdgeData)) (s : FillState)
    (hK : ∀ e ∈ s.aet, e.maximumY ≤ (etMaxYBound et : Int)) :
    ∀ e ∈ mergedAET et s, e.maximumY ≤ (etMaxYBound et : Int) := by
  intro e he
  rw [mergedAET, mem_sortByX] at he
  rcases List.mem_append.mp he with h | h
  · exact hK e h
  · by_cases hr : s.scanLine < et.length
    · exact etMaxYBound_le et (s.scanLine, e) (mem_etEnum_of_bucket et s.scanLine e h hr)
    · rw [List.getD_eq_default _ _ (Nat.le_of_not_lt hr)] at h
      simp at h

theorem coreStep_preserves_K (et : List (List EdgeData)) (s : FillState)
    (hK : ∀ e ∈ s.aet, e.maximumY ≤ (etMaxYBound et : Int)) :
    ∀ e ∈ (coreStep et s).aet, e.maximumY ≤ (etMaxYBound et : Int) := by
  intro e he
  simp only [coreStep] at he
  have h1 := (List.mem_filter.mp he).1
  obtain ⟨e0, he0, hee⟩ := List.mem_map.mp h1
  have hb := mergedAET_maxY_bounded et s hK e0 he0
  rw [← hee]
  exact hb

theorem coreStep_preserves_J (et : List (List EdgeData)) (s : FillState) :
    ∀ e ∈ (coreStep et s).aet, ((coreStep et s).scanLine : Int) < e.maximumY := by
  intro e he
  simp only [coreStep] at he ⊢
  have h2 := (List.mem_filter.mp he).2
  simpa using h2

theorem coreStep_terminal (et : List (List EdgeData)) (s : FillState)
    (h : ¬ (s.scanLine < et.length ∨ s.aet ≠ [])) :
    coreStep et s = ⟨s.scanLine + 1, []⟩ := by
  push_neg at h
  obtain ⟨h1, h2⟩ := h
  have hget : et.getD s.scanLine [] = [] := List.getD_eq_default _ _ h1
  rw [List.getD_eq_getElem?_getD] at hget
  simp [coreStep, mergedAET, h2, hget, sortByX]

theorem iterate_terminal (et : List (List EdgeData)) (s : FillState)
    (h : ¬ (s.scanLine < et.length ∨ s.aet ≠ [])) :
    ∀ k, ¬ ((((coreStep et)^[k]) s).scanLine < et.length ∨
      (((coreStep et)^[k]) s).aet ≠ []) := by
  intro k
  induction k generalizing s with
  | zero => simpa using h
  | succ k ih =>
    rw [Function.iterate_succ_apply]
    apply ih
    rw [coreStep_terminal et s h]
    push_neg at h ⊢
    refine ⟨?_, rfl⟩
    dsimp only
    omega

theorem orbit_reaches_terminal (et : List (List EdgeData)) :
    ∀ (k : Nat) (s : FillState),
      (∀ e ∈ s.aet, (s.scanLine : Int) < e.maximumY) →
      (∀ e ∈ s.aet, e.maximumY ≤ (etMaxYBound et : Int)) →
      loopFuel et ≤ s.scanLine + k →
      ¬ ((((coreStep et)^[k]) s).scanLine < et.length ∨
        (((coreStep et)^[k]) s).aet ≠ [])
  | 0, s => by
    intro hJ hK hb
    simp only [Function.iterate_zero, id_eq]
    rintro (h | h)
    · have hle : et.length ≤ loopFuel et := le_max_left _ _
      simp only [loopFuel] at hb hle
      omega
    · obtain ⟨e, he⟩ := List.exists_mem_of_ne_nil _ h
      have h1 := hJ e he
      have h2 := hK e he
      have h3 : etMaxYBound et + 1 ≤ loopFuel et := le_max_right _ _
      simp only [loopFuel] at hb h3
      omega
  | k + 1, s => by
    intro hJ hK hb
    by_cases hc : s.scanLine < et.length ∨ s.aet ≠ []
    · rw [Function.iterate_succ_apply]
      apply orbit_reaches_terminal et k (coreStep et s) (coreStep_preserves_J et s)
        (coreStep_preserves_K et s hK)
      simp only [coreStep]
      omega
    · exact iterate_terminal et s hc (k + 1)

theorem fillRowOut_terminal (et : List (List EdgeData)) (mh mw : Nat) (s : FillState)
    (h : ¬ (s.scanLine < et.length ∨ s.aet ≠ [])) :
    fillRowOut (mergedAET et s) (s.scanLine : Int) mh mw = [] := by
  push_neg at h
  have hget : et.getD s.scanLine [] = [] := List.getD_eq_default _ _ h.1
  rw [List.getD_eq_getElem?_getD] at hget
  simp [mergedAET, h.2, hget, sortByX, fillRowOut]

theorem triRowOut_terminal (et : List (List EdgeData)) (s : FillState)
    (h : ¬ (s.scanLine < et.length ∨ s.aet ≠ [])) :
    triRowOut (mergedAET et s) (s.scanLine : Int) = [] := by
  push_neg at h
  have hget : et.getD s.scanLine [] = [] := List.getD_eq_default _ _ h.1
  rw [List.getD_eq_getElem?_getD] at hget
  simp [mergedAET, h.2, hget, sortByX, triRowOut]

theorem fillLoop_eq_flatMap (et : List (List EdgeData)) (mh mw : Nat) :
    ∀ (fuel : Nat) (s : FillState),
      fillLoop et mh mw fuel s = (List.range fuel).flatMap
        (fun j => fillRowOut (mergedAET et (((coreStep et)^[j]) s))
          ((((coreStep et)^[j]) s).scanLine : Int) mh mw)
  | 0, s => by simp [fillLoop]
  | fuel + 1, s => by
    by_cases hc : s.scanLine < et.length ∨ s.aet ≠ []
    · unfold fillLoop
      rw [if_pos hc, fillLoop_eq_flatMap et mh mw fuel (coreStep et s)]
      rw [List.range_succ_eq_map, List.flatMap_cons, List.flatMap_map]
      congr 1
    · unfold fillLoop
      rw [if_neg hc]
      symm
      rw [List.flatMap_eq_nil_iff]
      intro j hj
      exact fillRowOut_terminal et mh mw _ (iterate_terminal et s hc j)

theorem triLoop_eq_flatMap (et : List (List EdgeData)) :
    ∀ (fuel : Nat) (s : FillState),
      triLoop et fuel s = (List.range fuel).flatMap
        (fun j => triRowOut (mergedAET et (((coreStep et)^[j]) s))
          ((((coreStep et)^[j]) s).scanLine : Int))
  | 0, s => by simp [triLoop]
  | fuel + 1, s => by
    by_cases hc : s.scanLine < et.length ∨ s.aet ≠ []
    · unfold triLoop
      rw [if_pos hc, triLoop_eq_flatMap et fuel (coreStep et s)]
      rw [List.range_succ_eq_map, List.flatMap_cons, List.flatMap_map]
      congr 1
    · unfold triLoop
      rw [if_neg hc]
      symm
      rw [List.flatMap_eq_nil_iff]
      intro j hj
      exact triRowOut_terminal et _ (iterate_terminal et s hc j)

theorem flatMap_range_stable {α : Type} (g : Nat → List α) (bnd m : Nat) (hm : bnd ≤ m)
    (h : ∀ j, bnd ≤ j → g j = []) :
    (List.range m).flatMap g = (List.range bnd).flatMap g := by
  have hsplit : m = bnd + (m - bnd) := by omega
  rw [hsplit, List.range_add, List.flatMap_append, List.flatMap_map]
  have hnil : ((List.range (m - bnd)).flatMap fun a => g (bnd + a)) = [] := by
    rw [List.flatMap_eq_nil_iff]
    intro x hx
    exact h _ (by omega)
  rw [hnil, List.append_nil]

theorem start_orbit_terminal (et : List (List EdgeData)) (start : Nat) :
    ∀ j, loopFuel et ≤ j →
      ¬ ((((coreStep et)^[j]) (⟨start, []⟩ : FillState)).scanLine < et.length ∨
        (((coreStep et)^[j]) (⟨start, []⟩ : FillState)).aet ≠ []) := by
  intro j hj
  apply orbit_reaches_terminal et j ⟨start, []⟩ (by simp) (by simp)
  dsimp only
  omega

theorem fillLoop_fuel_stable (et : List (List EdgeData)) (mh mw start m : Nat)
    (hm : loopFuel et ≤ m) :
    fillLoop et mh mw m ⟨start, []⟩ = fillLoop et mh mw (loopFuel et) ⟨start, []⟩ := by
  rw [fillLoop_eq_flatMap, fillLoop_eq_flatMap]
  apply flatMap_range_stable _ (loopFuel et) m hm
  intro j hj
  exact fillRowOut_terminal et mh mw _ (start_orbit_terminal et start j hj)

theorem triLoop_fuel_stable (et : List (List EdgeData)) (start m : Nat)
    (hm : loopFuel et ≤ m) :
    triLoop et m ⟨start, []⟩ = triLoop et (loopFuel et) ⟨start, []⟩ := by
  rw [triLoop_eq_flatMap, triLoop_eq_flatMap]
  apply flatMap_range_stable _ (loopFuel et) m hm
  intro j hj
  exact triRowOut_terminal et _ (start_orbit_terminal et start j hj)

/-- C5: the shared scanline loop of `fillPolygon` and
`generateTriangulation`, started at the lowest non-empty edge-table row
with an empty AET, terminates: after `loopFuel` iterations of the shared
state update the loop condition (`currentScanLine < edgeTable.size() ||
!activeEdgeTable.empty()`) is false — every edge leaves the AET no later
than when the row reaches its finite `yMax` and the row strictly increases
each iteration — and both loops' outputs are unchanged by any fuel beyond
that bound, so the fuel-based embeddings compute the full loop output. -/
theorem scanline_loops_terminate (polygonVertices : List Point2D)
    (maxHeight maxWidth : Nat) :
    (∃ n : Nat,
      ¬ ((((coreStep (buildEdgeTable polygonVertices maxHeight))^[n])
            (⟨firstRow (buildEdgeTable polygonVertices maxHeight), []⟩ : FillState)).scanLine <
          (buildEdgeTable polygonVertices maxHeight).length ∨
        (((coreStep (buildEdgeTable polygonVertices maxHeight))^[n])
            (⟨firstRow (buildEdgeTable polygonVertices maxHeight), []⟩ : FillState)).aet ≠
          [])) ∧
    (∀ m, loopFuel (buildEdgeTable polygonVertices maxHeight) ≤ m →
      fillLoop (buildEdgeTable polygonVertices maxHeight) maxHeight maxWidth m
          ⟨firstRow (buildEdgeTable polygonVertices maxHeight), []⟩ =
        fillLoop (buildEdgeTable polygonVertices maxHeight) maxHeight maxWidth
          (loopFuel (buildEdgeTable polygonVertices maxHeight))
          ⟨firstRow (buildEdgeTable polygonVertices maxHeight), []⟩ ∧
      triLoop (buildEdgeTable polygonVertices maxHeight) m
          ⟨firstRow (buildEdgeTable polygonVertices maxHeight), []⟩ =
        triLoop (buildEdgeTable polygonVertices maxHeight)
          (loopFuel (buildEdgeTable polygonVertices maxHeight))
          ⟨firstRow (buildEdgeTable polygonVertices maxHeight), []⟩) := by
  constructor
  · exact ⟨loopFuel (buildEdgeTable polygonVertices maxHeight),
      start_orbit_terminal _ _ _ (le_refl _)⟩
  · intro m hm
    exact ⟨fillLoop_fuel_stable _ maxHeight maxWidth _ m hm,
      triLoop_fuel_stable _ _ m hm⟩

/-- C5 witness: for the Scenario A square (table fuel bound 61), the loop
reaches its terminal state and the outputs are stable at fuel 61. -/
theorem scanline_loops_terminate_witness :
    (∃ n : Nat,
      ¬ ((((coreStep (buildEdgeTable squareVerts 60))^[n])
            (⟨firstRow (buildEdgeTable squareVerts 60), []⟩ : FillState)).scanLine <
          (buildEdgeTable squareVerts 60).length ∨
        (((coreStep (buildEdgeTable squareVerts 60))^[n])
            (⟨firstRow (buildEdgeTable squareVerts 60), []⟩ : FillState)).aet ≠ [])) ∧
    (fillLoop (buildEdgeTable squareVerts 60) 60 60 61
        ⟨firstRow (buildEdgeTable squareVerts 60), []⟩ =
      fillLoop (buildEdgeTable squareVerts 60) 60 60
        (loopFuel (buildEdgeTable squareVerts 60))
        ⟨firstRow (buildEdgeTable squareVerts 60), []⟩ ∧
    triLoop (buildEdgeTable squareVerts 60) 61
        ⟨firstRow (buildEdgeTable squareVerts 60), []⟩ =
      triLoop (buildEdgeTable squareVerts 60)
        (loopFuel (buildEdgeTable squareVerts 60))
        ⟨firstRow (buildEdgeTable squareVerts 60), []⟩) :=
  ⟨(scanline_loops_terminate squareVerts 60 60).1,
    (scanline_loops_terminate squareVerts 60 60).2 61 (by with_unfolding_all decide)⟩

theorem advanceBy_zero (e : EdgeData) : advanceBy e 0 = e := by
  cases e
  simp [advanceBy]

theorem advanceEdge_eq_advanceBy_one (e : EdgeData) : advanceEdge e = advanceBy e 1 := by
  cases e
  simp [advanceEdge, advanceBy]

theorem advanceEdge_advanceBy (e : EdgeData) (k : Nat) :
    advanceEdge (advanceBy e k) = advanceBy e (k + 1) := by
  cases e
  simp only [advanceBy, advanceEdge, EdgeData.mk.injEq, true_and, and_true]
  push_cast
  ring

theorem etEnumFrom_fst_bounds :
    ∀ (et : List (List EdgeData)) (k : Nat) (p : Nat × EdgeData),
      p ∈ etEnumFrom k et → k ≤ p.1 ∧ p.1 < k + et.length
  | [], k, p => by simp [etEnumFrom]
  | b :: rest, k, p => by
    intro hp
    unfold etEnumFrom at hp
    rcases List.mem_append.mp hp with h | h
    · obtain ⟨e, -, he⟩ := List.mem_map.mp h
      rw [← he]
      simp [List.length_cons]
    · have hb := etEnumFrom_fst_bounds rest (k + 1) p h
      simp only [List.length_cons]
      omega

theorem etEnumFrom_filter_fst :
    ∀ (et : List (List EdgeData)) (k r : Nat),
      (etEnumFrom k et).filter (fun p => decide (p.1 = k + r)) =
        (et.getD r []).map (fun e => (k + r, e))
  | [], k, r => by simp [etEnumFrom]
  | b :: rest, k, 0 => by
    rw [etEnumFrom, List.filter_append]
    have h1 : (b.map (fun e => (k, e))).filter (fun p => decide (p.1 = k + 0)) =
        b.map (fun e => (k + 0, e)) := by
      rw [List.filter_map]
      simp [Function.comp_def]
    have h2 : (etEnumFrom (k + 1) rest).filter (fun p => decide (p.1 = k + 0)) = [] := by
      rw [List.filter_eq_nil_iff]
      intro p hp
      have hb := (etEnumFrom_fst_bounds rest (k + 1) p hp).1
      simp only [decide_eq_true_eq]
      omega
    rw [h1, h2, List.append_nil, List.getD_cons_zero]
  | b :: rest, k, r + 1 => by
    rw [etEnumFrom, List.filter_append]
    have h1 : (b.map (fun e => (k, e))).filter (fun p => decide (p.1 = k + (r + 1))) = [] := by
      rw [List.filter_eq_nil_iff]
      intro p hp
      obtain ⟨e, -, he⟩ := List.mem_map.mp hp
      rw [← he]
      simp only [decide_eq_true_eq]
      omega
    have h2 := etEnumFrom_filter_fst rest (k + 1) r
    rw [h1, List.nil_append, List.getD_cons_succ,
      show k + (r + 1) = k + 1 + r from by omega]
    exact h2

theorem etEnum_filter_fst (et : List (List EdgeData)) (r : Nat) :
    (etEnum et).filter (fun p => decide (p.1 = r)) =
      (et.getD r []).map (fun e => (r, e)) := by
  have h := etEnumFrom_filter_fst et 0 r
  simpa using h

theorem expectedActive_le_aet (et : List (List EdgeData)) :
    ∀ r : Nat, (expectedActive et r : Multiset EdgeData) ≤
      ((stateAt et r).aet : Multiset EdgeData)
  | 0 => by
    have h0 : expectedActive et 0 = [] := by
      unfold expectedActive
      rw [List.filter_eq_nil_iff.mpr, List.map_nil]
      intro p hp
      simp
    rw [h0]
    exact Multiset.zero_le _
  | r + 1 => by
    have ih := expectedActive_le_aet et r
    -- the next state, as a multiset equation
    have hstep : (stateAt et (r + 1)).aet =
        ((mergedAET et (stateAt et r)).map advanceEdge).filter
          (fun e => decide (((r + 1 : Nat) : Int) < e.maximumY)) := by
      rw [stateAt_succ]
      simp only [coreStep, stateAt_scanLine]
    have hmerged : ((mergedAET et (stateAt et r)) : Multiset EdgeData) =
        ((stateAt et r).aet : Multiset EdgeData) + (et.getD r [] : Multiset EdgeData) := by
      rw [Multiset.coe_add, Multiset.coe_eq_coe, mergedAET, stateAt_scanLine]
      exact sortByX_perm _
    -- target right-hand side in multiset form
    have hrhs : (((stateAt et (r + 1)).aet : List EdgeData) : Multiset EdgeData) =
        Multiset.filter (fun e => ((r + 1 : Nat) : Int) < e.maximumY)
          (Multiset.map advanceEdge ((stateAt et r).aet : Multiset EdgeData)) +
        Multiset.filter (fun e => ((r + 1 : Nat) : Int) < e.maximumY)
          (Multiset.map advanceEdge (et.getD r [] : Multiset EdgeData)) := by
      rw [hstep, ← Multiset.filter_coe, ← Multiset.map_coe, hmerged, Multiset.map_add,
        Multiset.filter_add]
    -- expected set at r+1, split into the freshly inserted bucket and the rest
    have hsplitQ : Multiset.filter
          (fun p : Nat × EdgeData => p.1 < r + 1 ∧ ((r + 1 : Nat) : Int) < p.2.maximumY)
          ((etEnum et : List (Nat × EdgeData)) : Multiset (Nat × EdgeData)) =
        Multiset.filter
          (fun p : Nat × EdgeData => p.1 < r ∧ ((r + 1 : Nat) : Int) < p.2.maximumY)
          ((etEnum et : List (Nat × EdgeData)) : Multiset (Nat × EdgeData)) +
        Multiset.filter
          (fun p : Nat × EdgeData => p.1 = r ∧ ((r + 1 : Nat) : Int) < p.2.maximumY)
          ((etEnum et : List (Nat × EdgeData)) : Multiset (Nat × EdgeData)) := by
      rw [Multiset.filter_add_filter]
      have hor : Multiset.filter
          (fun p : Nat × EdgeData => (p.1 < r ∧ ((r + 1 : Nat) : Int) < p.2.maximumY) ∨
            (p.1 = r ∧ ((r + 1 : Nat) : Int) < p.2.maximumY))
          ((etEnum et : List (Nat × EdgeData)) : Multiset (Nat × EdgeData)) =
          Multiset.filter
            (fun p : Nat × EdgeData => p.1 < r + 1 ∧ ((r + 1 : Nat) : Int) < p.2.maximumY)
            ((etEnum et : List (Nat × EdgeData)) : Multiset (Nat × EdgeData)) := by
        apply Multiset.filter_congr
        intro p _
        constructor
        · rintro (⟨h1, h2⟩ | ⟨h1, h2⟩) <;> exact ⟨by omega, h2⟩
        · rintro ⟨h1, h2⟩
          rcases Nat.lt_or_ge p.1 r with h3 | h3
          · exact Or.inl ⟨h3, h2⟩
          · exact Or.inr ⟨by omega, h2⟩
      have hand : Multiset.filter
          (fun p : Nat × EdgeData => (p.1 < r ∧ ((r + 1 : Nat) : Int) < p.2.maximumY) ∧
            (p.1 = r ∧ ((r + 1 : Nat) : Int) < p.2.maximumY))
          ((etEnum et : List (Nat × EdgeData)) : Multiset (Nat × EdgeData)) = 0 := by
        rw [Multiset.filter_eq_nil]
        rintro p - ⟨⟨h1, -⟩, ⟨h2, -⟩⟩
        omega
      rw [hor, hand, add_zero]
    -- E(r + 1) in multiset form
    have hE : ((expectedActive et (r + 1) : List EdgeData) : Multiset EdgeData) =
        Multiset.map (fun p : Nat × EdgeData => advanceBy p.2 (r + 1 - p.1))
          (Multiset.filter
            (fun p : Nat × EdgeData => p.1 < r + 1 ∧ ((r + 1 : Nat) : Int) < p.2.maximumY)
            ((etEnum et : List (Nat × EdgeData)) : Multiset (Nat × EdgeData))) := by
      unfold expectedActive
      rw [← Multiset.map_coe, ← Multiset.filter_coe]
    have hEr : ((expectedActive et r : List EdgeData) : Multiset EdgeData) =
        Multiset.map (fun p : Nat × EdgeData => advanceBy p.2 (r - p.1))
          (Multiset.filter
            (fun p : Nat × EdgeData => p.1 < r ∧ ((r : Nat) : Int) < p.2.maximumY)
            ((etEnum et : List (Nat × EdgeData)) : Multiset (Nat × EdgeData))) := by
      unfold expectedActive
      rw [← Multiset.map_coe, ← Multiset.filter_coe]
    have hchain : Multiset.filter (fun e => ((r + 1 : Nat) : Int) < e.maximumY)
        (Multiset.map advanceEdge
          ((expectedActive et r : List EdgeData) : Multiset EdgeData)) =
        Multiset.map (fun p : Nat × EdgeData => advanceBy p.2 (r + 1 - p.1))
          (Multiset.filter
            (fun p : Nat × EdgeData => p.1 < r ∧ ((r + 1 : Nat) : Int) < p.2.maximumY)
            ((etEnum et : List (Nat × EdgeData)) : Multiset (Nat × EdgeData))) := by
      rw [hEr, Multiset.map_map, Multiset.filter_map, Multiset.filter_filter]
      have hfc : Multiset.filter
          (fun a : Nat × EdgeData =>
            ((fun e => ((r + 1 : Nat) : Int) < e.maximumY) ∘ advanceEdge ∘
              fun p : Nat × EdgeData => advanceBy p.2 (r - p.1)) a ∧
            a.1 < r ∧ ((r : Nat) : Int) < a.2.maximumY)
          ((etEnum et : List (Nat × EdgeData)) : Multiset (Nat × EdgeData)) =
          Multiset.filter
            (fun p : Nat × EdgeData => p.1 < r ∧ ((r + 1 : Nat) : Int) < p.2.maximumY)
            ((etEnum et : List (Nat × EdgeData)) : Multiset (Nat × EdgeData)) := by
        apply Multiset.filter_congr
        intro p _
        simp only [Function.comp_apply]
        have hmax : (advanceEdge (advanceBy p.2 (r - p.1))).maximumY = p.2.maximumY := rfl
        rw [hmax]
        constructor
        · rintro ⟨h1, h2, h3⟩
          exact ⟨h2, h1⟩
        · rintro ⟨h1, h2⟩
          exact ⟨h2, h1, by omega⟩
      rw [hfc]
      apply Multiset.map_congr rfl
      intro p hp
      have hplt : p.1 < r := (Multiset.mem_filter.mp hp).2.1
      simp only [Function.comp_apply]
      rw [advanceEdge_advanceBy]
      congr 1
      omega
    have hpart2 : Multiset.map (fun p : Nat × EdgeData => advanceBy p.2 (r + 1 - p.1))
        (Multiset.filter
          (fun p : Nat × EdgeData => p.1 = r ∧ ((r + 1 : Nat) : Int) < p.2.maximumY)
          ((etEnum et : List (Nat × EdgeData)) : Multiset (Nat × EdgeData))) =
        Multiset.filter (fun e => ((r + 1 : Nat) : Int) < e.maximumY)
          (Multiset.map advanceEdge ((et.getD r [] : List EdgeData) : Multiset EdgeData)) := by
      have ha : Multiset.filter
          (fun p : Nat × EdgeData => p.1 = r ∧ ((r + 1 : Nat) : Int) < p.2.maximumY)
          ((etEnum et : List (Nat × EdgeData)) : Multiset (Nat × EdgeData)) =
          Multiset.filter (fun p : Nat × EdgeData => ((r + 1 : Nat) : Int) < p.2.maximumY)
            (Multiset.filter (fun p : Nat × EdgeData => p.1 = r)
              ((etEnum et : List (Nat × EdgeData)) : Multiset (Nat × EdgeData))) := by
        rw [Multiset.filter_filter]
        apply Multiset.filter_congr
        intro p _
        constructor
        · rintro ⟨h1, h2⟩
          exact ⟨h2, h1⟩
        · rintro ⟨h1, h2⟩
          exact ⟨h2, h1⟩
      have hb : Multiset.filter (fun p : Nat × EdgeData => p.1 = r)
          ((etEnum et : List (Nat × EdgeData)) : Multiset (Nat × EdgeData)) =
          Multiset.map (fun e => (r, e)) ((et.getD r [] : List EdgeData) : Multiset EdgeData) := by
        rw [Multiset.filter_coe, etEnum_filter_fst, Multiset.map_coe]
      rw [ha, hb, Multiset.filter_map, Multiset.map_map, Multiset.filter_map]
      have hc : Multiset.filter
          ((fun p : Nat × EdgeData => ((r + 1 : Nat) : Int) < p.2.maximumY) ∘ fun e => (r, e))
          ((et.getD r [] : List EdgeData) : Multiset EdgeData) =
          Multiset.filter
            ((fun e => ((r + 1 : Nat) : Int) < e.maximumY) ∘ advanceEdge)
            ((et.getD r [] : List EdgeData) : Multiset EdgeData) := by
        apply Multiset.filter_congr
        intro e _
        simp only [Function.comp_apply]
        have hmax : (advanceEdge e).maximumY = e.maximumY := rfl
        rw [hmax]
      rw [hc]
      apply Multiset.map_congr rfl
      intro e _
      simp only [Function.comp_apply]
      rw [show r + 1 - r = 1 from by omega, ← advanceEdge_eq_advanceBy_one]
    rw [hrhs, hE, hsplitQ, Multiset.map_add]
    exact add_le_add
      (by rw [← hchain]; exact Multiset.filter_le_filter _ (Multiset.map_le_map ih))
      (le_of_eq hpart2)

theorem mem_bucket_of_mem_etEnum (et : List (List EdgeData)) (p : Nat × EdgeData)
    (hp : p ∈ etEnum et) : p.2 ∈ et.getD p.1 [] := by
  have hmem : p ∈ (etEnum et).filter (fun q => decide (q.1 = p.1)) :=
    List.mem_filter.mpr ⟨hp, by simp⟩
  rw [etEnum_filter_fst] at hmem
  obtain ⟨e, he, hpe⟩ := List.mem_map.mp hmem
  rw [← hpe]
  exact he

theorem stateAt_eq_of_le_firstRow (et : List (List EdgeData)) :
    ∀ n, n ≤ firstRow et → stateAt et n = ⟨n, []⟩
  | 0, _ => rfl
  | n + 1, h => by
    have hn : n ≤ firstRow et := by omega
    have ih := stateAt_eq_of_le_firstRow et n hn
    rw [stateAt_succ, ih]
    have hlt : n < firstRow et := by omega
    have hfrlen : firstRow et ≤ et.length := List.findIdx_le_length _
    have hnlen : n < et.length := by omega
    have hfalse : (fun b : List EdgeData => !b.isEmpty) (et.getD n []) = false := by
      rw [List.getD_eq_getElem et [] hnlen]
      exact List.not_of_lt_findIdx hlt
    have hnil : et.getD n [] = [] := by
      simp only [Bool.not_eq_false'] at hfalse
      exact List.isEmpty_iff.mp hfalse
    simp only [coreStep, mergedAET, hnil, List.nil_append, sortByX, List.map_nil,
      List.filter_nil]

/-- C10 counterexample: for the triangle `(5,9), (0,20), (10,20)` with
`maxHeight = 10`, both non-horizontal edges have their lower endpoint at
row 9 in `[0, 10)` and `yMax = 20 > 10`, yet both are valley-adjusted to
row 10 and dropped by the post-adjustment range check, so the edge table
is empty, the edges never enter the AET, and no triangle is emitted at
any row. -/
theorem triangulation_wedge_dropped :
    (min (wedgeVerts.getD 0 default).coordinateY
        (wedgeVerts.getD 1 default).coordinateY = 9 ∧
      max (wedgeVerts.getD 0 default).coordinateY
        (wedgeVerts.getD 1 default).coordinateY = 20 ∧
      min (wedgeVerts.getD 2 default).coordinateY
        (wedgeVerts.getD 0 default).coordinateY = 9 ∧
      max (wedgeVerts.getD 2 default).coordinateY
        (wedgeVerts.getD 0 default).coordinateY = 20 ∧
      (0 : Int) ≤ 9 ∧ (9 : Int) < 10 ∧ (10 : Int) < 20) ∧
    binOf wedgeVerts 10 0 = none ∧ binOf wedgeVerts 10 2 = none ∧
    generateTriangulation wedgeVerts 10 = [] := by
  with_unfolding_all decide

/-- C10 amended: `generateTriangulation` applies no row clamp.  Every
table entry binned at row `b` with `yMax > r` is still present (walked
forward to row `r`) in the active edge table at every row `r > b`,
including rows at and beyond `maxHeight`; and if at least two table
entries have `yMax > maxHeight` (their binned rows are necessarily below
`maxHeight`), the AET at row `maxHeight` still holds at least two edges
and `generateTriangulation` emits a triangle with a vertex at row
`≥ maxHeight` — unlike `fillPolygon`, whose emission is guarded by
`currentScanLine < maxHeight`. -/
theorem triangulation_no_row_clamp (polygonVertices : List Point2D) (maxHeight : Nat)
    (hlen : 3 ≤ polygonVertices.length) :
    (∀ p ∈ etEnum (buildEdgeTable polygonVertices maxHeight), ∀ r : Nat,
      p.1 < r → (r : Int) < p.2.maximumY →
      advanceBy p.2 (r - p.1) ∈
        (stateAt (buildEdgeTable polygonVertices maxHeight) r).aet) ∧
    (2 ≤ ((etEnum (buildEdgeTable polygonVertices maxHeight)).filter
        (fun p => decide ((maxHeight : Int) < p.2.maximumY))).length →
      2 ≤ (emissionAET (buildEdgeTable polygonVertices maxHeight) maxHeight).length ∧
      ∃ t ∈ generateTriangulation polygonVertices maxHeight,
        ∃ pt ∈ t, (maxHeight : Int) ≤ pt.coordinateY) := by
  have hetlen : (buildEdgeTable polygonVertices maxHeight).length = maxHeight :=
    buildEdgeTable_length _ _
  have hpresence : ∀ p ∈ etEnum (buildEdgeTable polygonVertices maxHeight), ∀ r : Nat,
      p.1 < r → (r : Int) < p.2.maximumY →
      advanceBy p.2 (r - p.1) ∈
        (stateAt (buildEdgeTable polygonVertices maxHeight) r).aet := by
    intro p hp r h1 h2
    have hmemE : advanceBy p.2 (r - p.1) ∈
        expectedActive (buildEdgeTable polygonVertices maxHeight) r := by
      unfold expectedActive
      exact List.mem_map.mpr ⟨p, List.mem_filter.mpr ⟨hp, by simp [h1, h2]⟩, rfl⟩
    have hle := expectedActive_le_aet (buildEdgeTable polygonVertices maxHeight) r
    exact Multiset.mem_coe.mp (Multiset.mem_of_le hle (Multiset.mem_coe.mpr hmemE))
  refine ⟨hpresence, ?_⟩
  intro hcount
  -- the filtered entries all have binned row below maxHeight
  have hcongr : ((etEnum (buildEdgeTable polygonVertices maxHeight)).filter
      (fun p => decide ((maxHeight : Int) < p.2.maximumY))).length =
      (expectedActive (buildEdgeTable polygonVertices maxHeight) maxHeight).length := by
    unfold expectedActive
    rw [List.length_map]
    congr 1
    apply List.filter_congr
    intro p hp
    have hb := etEnumFrom_fst_bounds (buildEdgeTable polygonVertices maxHeight) 0 p hp
    rw [decide_eq_decide]
    constructor
    · intro h
      exact ⟨by omega, h⟩
    · intro h
      exact h.2
  have hcard : 2 ≤ ((stateAt (buildEdgeTable polygonVertices maxHeight) maxHeight).aet).length := by
    have hle := expectedActive_le_aet (buildEdgeTable polygonVertices maxHeight) maxHeight
    have hc := Multiset.card_le_card hle
    rw [Multiset.coe_card, Multiset.coe_card] at hc
    omega
  have hEAlen : 2 ≤ (emissionAET (buildEdgeTable polygonVertices maxHeight) maxHeight).length := by
    unfold emissionAET mergedAET
    rw [(sortByX_perm _).length_eq, List.length_append]
    omega
  refine ⟨hEAlen, ?_⟩
  -- there is an entry, so the table has a non-empty bucket
  have hpex : ∃ p, p ∈ (etEnum (buildEdgeTable polygonVertices maxHeight)).filter
      (fun p => decide ((maxHeight : Int) < p.2.maximumY)) := by
    rcases hfl : (etEnum (buildEdgeTable polygonVertices maxHeight)).filter
        (fun p => decide ((maxHeight : Int) < p.2.maximumY)) with _ | ⟨p, rest⟩
    · rw [hfl] at hcount
      simp at hcount
    · exact ⟨p, by rw [hfl]; exact List.mem_cons_self _ _⟩
  obtain ⟨p0, hp0f⟩ := hpex
  have hp0 : p0 ∈ etEnum (buildEdgeTable polygonVertices maxHeight) :=
    (List.mem_filter.mp hp0f).1
  have hp0max : (maxHeight : Int) < p0.2.maximumY := by
    have := (List.mem_filter.mp hp0f).2
    simpa using this
  have hfr : firstRow (buildEdgeTable polygonVertices maxHeight) <
      (buildEdgeTable polygonVertices maxHeight).length := by
    rw [firstRow, List.findIdx_lt_length]
    have hbmem := mem_bucket_of_mem_etEnum _ p0 hp0
    have hblt : p0.1 < (buildEdgeTable polygonVertices maxHeight).length := by
      have := etEnumFrom_fst_bounds (buildEdgeTable polygonVertices maxHeight) 0 p0 hp0
      omega
    refine ⟨(buildEdgeTable polygonVertices maxHeight).getD p0.1 [], ?_, ?_⟩
    · rw [List.getD_eq_getElem _ [] hblt]
      exact List.getElem_mem hblt
    · have hne : (buildEdgeTable polygonVertices maxHeight).getD p0.1 [] ≠ [] := by
        intro hcon
        rw [hcon] at hbmem
        simp at hbmem
      simpa using hne
  have hfuel : maxHeight - firstRow (buildEdgeTable polygonVertices maxHeight) <
      loopFuel (buildEdgeTable polygonVertices maxHeight) := by
    have hbound : p0.2.maximumY.toNat ≤
        etMaxYBound (buildEdgeTable polygonVertices maxHeight) :=
      mem_le_foldl_max (etEnum (buildEdgeTable polygonVertices maxHeight)) 0 p0 hp0
    have h2 : etMaxYBound (buildEdgeTable polygonVertices maxHeight) + 1 ≤
        loopFuel (buildEdgeTable polygonVertices maxHeight) := le_max_right _ _
    omega
  -- unfold the triangulation run to its per-row normal form
  rw [show generateTriangulation polygonVertices maxHeight =
      triLoop (buildEdgeTable polygonVertices maxHeight)
        (loopFuel (buildEdgeTable polygonVertices maxHeight))
        (⟨firstRow (buildEdgeTable polygonVertices maxHeight), []⟩ : FillState) from by
    unfold generateTriangulation
    rw [if_neg (by omega)]
    exact if_neg (by omega)]
  rw [triLoop_eq_flatMap]
  have hiter : ((coreStep (buildEdgeTable polygonVertices maxHeight))^[maxHeight -
      firstRow (buildEdgeTable polygonVertices maxHeight)])
      (⟨firstRow (buildEdgeTable polygonVertices maxHeight), []⟩ : FillState) =
      stateAt (buildEdgeTable polygonVertices maxHeight) maxHeight := by
    rw [← stateAt_eq_of_le_firstRow (buildEdgeTable polygonVertices maxHeight)
      (firstRow (buildEdgeTable polygonVertices maxHeight)) (le_refl _)]
    unfold stateAt
    rw [← Function.iterate_add_apply]
    congr 1
    omega
  rcases hEA : emissionAET (buildEdgeTable polygonVertices maxHeight) maxHeight
    with _ | ⟨e1, rest1⟩
  · rw [hEA] at hEAlen
    simp at hEAlen
  · rcases rest1 with _ | ⟨e2, rest2⟩
    · rw [hEA] at hEAlen
      simp at hEAlen
    · refine ⟨[⟨ratTrunc e1.currentX, (maxHeight : Int)⟩,
          ⟨ratTrunc e2.currentX, (maxHeight : Int)⟩,
          ⟨ratTrunc (e1.currentX + e1.inverseSlope), (maxHeight : Int) + 1⟩],
        List.mem_flatMap.mpr ⟨maxHeight -
          firstRow (buildEdgeTable polygonVertices maxHeight),
          List.mem_range.mpr hfuel, ?_⟩,
        ⟨ratTrunc e1.currentX, (maxHeight : Int)⟩, List.mem_cons_self _ _, le_refl _⟩
      rw [hiter]
      have hmerged : mergedAET (buildEdgeTable polygonVertices maxHeight)
          (stateAt (buildEdgeTable polygonVertices maxHeight) maxHeight) =
          e1 :: e2 :: rest2 := hEA
      rw [hmerged, stateAt_scanLine]
      unfold triRowOut
      rw [if_pos (by simp [List.length_cons])]
      unfold triEmitPairs
      exact List.mem_cons_self _ _

/-- C10 witness: the Scenario A square with `maxHeight = 30`: both
vertical edges have `yMax = 50 > 30`, the AET at row 30 still holds both,
and a triangle with a vertex at row `≥ 30` is emitted. -/
theorem triangulation_no_row_clamp_witness :
    2 ≤ ((etEnum (buildEdgeTable squareVerts 30)).filter
        (fun p => decide ((30 : Int) < p.2.maximumY))).length ∧
    2 ≤ (emissionAET (buildEdgeTable squareVerts 30) 30).length ∧
    ∃ t ∈ generateTriangulation squareVerts 30, ∃ pt ∈ t, (30 : Int) ≤ pt.coordinateY :=
  ⟨by with_unfolding_all decide,
    (triangulation_no_row_clamp squareVerts 30 (by decide)).2
      (by with_unfolding_all decide)⟩

theorem shift_eq_cond (a b k : Int) : (a + k = b + k) = (a = b) := by
  rw [eq_iff_iff]; omega

theorem shift_lt_cond (a b k : Int) : (a + k < b + k) = (a < b) := by
  rw [eq_iff_iff]; omega

theorem getD_map_translate (verts : List Point2D) (k : Int) (j : Nat)
    (hj : j < verts.length) :
    (verts.map (translateVertex k)).getD j default =
      translateVertex k (verts.getD j default) := by
  rw [List.getD_eq_getElem _ _ (by simpa using hj), List.getD_eq_getElem _ _ hj,
    List.getElem_map]

theorem calculateInverseSlope_translate (p q : Point2D) (k : Int) :
    calculateInverseSlope (translateVertex k p) (translateVertex k q) =
      calculateInverseSlope p q := by
  simp only [calculateInverseSlope, translateVertex]
  rw [show q.coordinateY + k - (p.coordinateY + k) = q.coordinateY - p.coordinateY from by
    omega]

theorem binOf_translate (verts : List Point2D) (k mh : Nat) (i : Nat) (hi : i < verts.length)
    (hin : ∀ v ∈ verts, (0 ≤ v.coordinateY ∧ v.coordinateY < (mh : Int)) ∧
      (0 ≤ v.coordinateY + (k : Int) ∧ v.coordinateY + (k : Int) < (mh : Int))) :
    binOf (verts.map (translateVertex (k : Int))) mh i =
      Option.map (fun p => (p.1 + k, shiftEdge (k : Int) p.2)) (binOf verts mh i) := by
  have hn0 : 0 < verts.length := Nat.lt_of_le_of_lt (Nat.zero_le i) hi
  have hi1 : (i + 1) % verts.length < verts.length := Nat.mod_lt _ hn0
  have hip : (i + verts.length - 1) % verts.length < verts.length := Nat.mod_lt _ hn0
  have hi2 : (i + 2) % verts.length < verts.length := Nat.mod_lt _ hn0
  have hcur := hin _ (getD_mem_of_lt hi)
  have hnxt := hin _ (getD_mem_of_lt hi1)
  have hprv := hin _ (getD_mem_of_lt hip)
  have hnx2 := hin _ (getD_mem_of_lt hi2)
  simp only [binOf, List.length_map]
  rw [getD_map_translate _ _ _ hi, getD_map_translate _ _ _ hi1,
    getD_map_translate _ _ _ hip, getD_map_translate _ _ _ hi2]
  have tvx : ∀ v : Point2D, (translateVertex (k : Int) v).coordinateX = v.coordinateX :=
    fun v => rfl
  have tvy : ∀ v : Point2D, (translateVertex (k : Int) v).coordinateY =
      v.coordinateY + (k : Int) := fun v => rfl
  simp only [tvx, tvy]
  simp only [show ((verts.getD i default).coordinateY + (k : Int) = (verts.getD ((i + 1) % verts.length) default).coordinateY + (k : Int)) = ((verts.getD i default).coordinateY = (verts.getD ((i + 1) % verts.length) default).coordinateY) from shift_eq_cond _ _ _]
  by_cases hhor : (verts.getD i default).coordinateY = (verts.getD ((i + 1) % verts.length) default).coordinateY
  · rw [if_pos hhor, if_pos hhor, if_pos hcur.2, if_pos hcur.1]
    simp only [Option.map_some', shiftEdge, Option.some.injEq, Prod.mk.injEq,
      EdgeData.mk.injEq, and_true, true_and]
    all_goals (first | trivial | omega)
  · rw [if_neg hhor, if_neg hhor]
    simp only [show ((verts.getD ((i + 1) % verts.length) default).coordinateY + (k : Int) < (verts.getD i default).coordinateY + (k : Int)) = ((verts.getD ((i + 1) % verts.length) default).coordinateY < (verts.getD i default).coordinateY) from shift_lt_cond _ _ _]
    by_cases hsw : (verts.getD ((i + 1) % verts.length) default).coordinateY < (verts.getD i default).coordinateY
    · rw [if_pos hsw, if_pos hsw, if_pos hsw, if_pos hsw]
      simp only [tvx, tvy]
      rw [calculateInverseSlope_translate]
      rw [if_pos hnxt.2, if_pos hnxt.1]
      simp only [show ((verts.getD ((i + 1) % verts.length) default).coordinateY + (k : Int) = (verts.getD i default).coordinateY + (k : Int)) = ((verts.getD ((i + 1) % verts.length) default).coordinateY = (verts.getD i default).coordinateY) from
        shift_eq_cond _ _ _]
      rw [if_neg (show ¬ ((verts.getD ((i + 1) % verts.length) default).coordinateX = (verts.getD i default).coordinateX ∧ (verts.getD ((i + 1) % verts.length) default).coordinateY = (verts.getD i default).coordinateY) from fun hc => hhor hc.2.symm),
        if_neg (show ¬ ((verts.getD ((i + 1) % verts.length) default).coordinateX = (verts.getD i default).coordinateX ∧ (verts.getD ((i + 1) % verts.length) default).coordinateY = (verts.getD i default).coordinateY) from fun hc => hhor hc.2.symm),
        if_neg (show ¬ ((verts.getD ((i + 1) % verts.length) default).coordinateX = (verts.getD i default).coordinateX ∧ (verts.getD ((i + 1) % verts.length) default).coordinateY = (verts.getD i default).coordinateY) from fun hc => hhor hc.2.symm),
        if_neg (show ¬ ((verts.getD ((i + 1) % verts.length) default).coordinateX = (verts.getD i default).coordinateX ∧ (verts.getD ((i + 1) % verts.length) default).coordinateY = (verts.getD i default).coordinateY) from fun hc => hhor hc.2.symm)]
      simp only [tvx, tvy]
      simp only [show ((verts.getD i default).coordinateY + (k : Int) < (verts.getD ((i + 1) % verts.length) default).coordinateY + (k : Int)) = ((verts.getD i default).coordinateY < (verts.getD ((i + 1) % verts.length) default).coordinateY) from
        shift_lt_cond _ _ _]
      simp only [show ((verts.getD ((i + 2) % verts.length) default).coordinateY + (k : Int) < (verts.getD ((i + 1) % verts.length) default).coordinateY + (k : Int)) = ((verts.getD ((i + 2) % verts.length) default).coordinateY < (verts.getD ((i + 1) % verts.length) default).coordinateY) from
        shift_lt_cond _ _ _]
      by_cases hadj : (((verts.getD i default).coordinateY < (verts.getD ((i + 1) % verts.length) default).coordinateY) = ((verts.getD ((i + 2) % verts.length) default).coordinateY < (verts.getD ((i + 1) % verts.length) default).coordinateY)) ∧ ¬ ((verts.getD i default).coordinateY < (verts.getD ((i + 1) % verts.length) default).coordinateY)
      · rw [if_pos hadj, if_pos hadj]
        dsimp only
        rw [if_pos (⟨by omega, by omega⟩ :
            (0 : Int) ≤ (verts.getD ((i + 1) % verts.length) default).coordinateY + (k : Int) + 1 ∧ (verts.getD ((i + 1) % verts.length) default).coordinateY + (k : Int) + 1 < (mh : Int))]
        rw [if_pos (⟨by omega, by omega⟩ :
            (0 : Int) ≤ (verts.getD ((i + 1) % verts.length) default).coordinateY + 1 ∧ (verts.getD ((i + 1) % verts.length) default).coordinateY + 1 < (mh : Int))]
        simp only [Option.map_some', shiftEdge, Option.some.injEq, Prod.mk.injEq,
          EdgeData.mk.injEq, and_true, true_and]
        all_goals (first | trivial | omega)
      · rw [if_neg hadj, if_neg hadj]
        dsimp only
        rw [if_pos hnxt.2, if_pos hnxt.1]
        simp only [Option.map_some', shiftEdge, Option.some.injEq, Prod.mk.injEq,
          EdgeData.mk.injEq, and_true, true_and]
        all_goals (first | trivial | omega)
    · rw [if_neg hsw, if_neg hsw, if_neg hsw, if_neg hsw]
      simp only [tvx, tvy]
      rw [calculateInverseSlope_translate]
      rw [if_pos hcur.2, if_pos hcur.1]
      simp only [and_self, if_true]
      simp only [tvx, tvy]
      simp only [show ((verts.getD ((i + verts.length - 1) % verts.length) default).coordinateY + (k : Int) < (verts.getD i default).coordinateY + (k : Int)) = ((verts.getD ((i + verts.length - 1) % verts.length) default).coordinateY < (verts.getD i default).coordinateY) from
        shift_lt_cond _ _ _]
      simp only [show ((verts.getD ((i + 1) % verts.length) default).coordinateY + (k : Int) < (verts.getD i default).coordinateY + (k : Int)) = ((verts.getD ((i + 1) % verts.length) default).coordinateY < (verts.getD i default).coordinateY) from
        shift_lt_cond _ _ _]
      by_cases hadj : (((verts.getD ((i + verts.length - 1) % verts.length) default).coordinateY < (verts.getD i default).coordinateY) = ((verts.getD ((i + 1) % verts.length) default).coordinateY < (verts.getD i default).coordinateY)) ∧ ¬ ((verts.getD ((i + verts.length - 1) % verts.length) default).coordinateY < (verts.getD i default).coordinateY)
      · rw [if_pos hadj, if_pos hadj]
        dsimp only
        rw [if_pos (⟨by omega, by omega⟩ :
            (0 : Int) ≤ (verts.getD i default).coordinateY + (k : Int) + 1 ∧ (verts.getD i default).coordinateY + (k : Int) + 1 < (mh : Int))]
        rw [if_pos (⟨by omega, by omega⟩ :
            (0 : Int) ≤ (verts.getD i default).coordinateY + 1 ∧ (verts.getD i default).coordinateY + 1 < (mh : Int))]
        simp only [Option.map_some', shiftEdge, Option.some.injEq, Prod.mk.injEq,
          EdgeData.mk.injEq, and_true, true_and]
        all_goals (first | trivial | omega)
      · rw [if_neg hadj, if_neg hadj]
        dsimp only
        rw [if_pos hcur.2, if_pos hcur.1]
        simp only [Option.map_some', shiftEdge, Option.some.injEq, Prod.mk.injEq,
          EdgeData.mk.injEq, and_true, true_and]
        all_goals (first | trivial | omega)


theorem insertByX_map_shift (k : Int) (e : EdgeData) (l : List EdgeData) :
    insertByX (shiftEdge k e) (l.map (shiftEdge k)) = (insertByX e l).map (shiftEdge k) := by
  induction l with
  | nil => rfl
  | cons f rest ih =>
    simp only [List.map_cons, insertByX]
    have hx : (shiftEdge k e).currentX = e.currentX := rfl
    have hf : (shiftEdge k f).currentX = f.currentX := rfl
    rw [hx, hf]
    by_cases h : e.currentX < f.currentX
    · rw [if_pos h, if_pos h]
      simp
    · rw [if_neg h, if_neg h]
      simp [ih]

theorem sortByX_map_shift (k : Int) (l : List EdgeData) :
    sortByX (l.map (shiftEdge k)) = (sortByX l).map (shiftEdge k) := by
  induction l with
  | nil => rfl
  | cons e rest ih =>
    simp only [List.map_cons, sortByX, ih, insertByX_map_shift]

theorem buildEdgeTable_translate (verts : List Point2D) (k mh : Nat)
    (hin : ∀ v ∈ verts, (0 ≤ v.coordinateY ∧ v.coordinateY < (mh : Int)) ∧
      (0 ≤ v.coordinateY + (k : Int) ∧ v.coordinateY + (k : Int) < (mh : Int))) :
    ∀ j : Nat, (buildEdgeTable (verts.map (translateVertex (k : Int))) mh).getD j [] =
      if k ≤ j then
        ((buildEdgeTable verts mh).getD (j - k) []).map (shiftEdge (k : Int))
      else [] := by
  have key : ∀ (l : List Nat), (∀ i ∈ l, i < verts.length) →
      ∀ (et et' : List (List EdgeData)), et.length = mh → et'.length = mh →
      (∀ j : Nat, et'.getD j [] =
        if k ≤ j then (et.getD (j - k) []).map (shiftEdge (k : Int)) else []) →
      ∀ j : Nat, (l.foldl (applyBin (verts.map (translateVertex (k : Int))) mh) et').getD j [] =
        if k ≤ j then
          ((l.foldl (applyBin verts mh) et).getD (j - k) []).map (shiftEdge (k : Int))
        else [] := by
    intro l
    induction l with
    | nil =>
      intro _ et et' _ _ hrel j
      exact hrel j
    | cons i rest ih =>
      intro hl et et' hlen hlen' hrel j
      simp only [List.foldl_cons]
      have hi : i < verts.length := hl i (List.mem_cons_self _ _)
      have hbt := binOf_translate verts k mh i hi hin
      refine ih (fun x hx => hl x (List.mem_cons_of_mem _ hx)) _ _ ?_ ?_ ?_ j
      · exact applyBin_length verts mh et i ▸ hlen
      · exact applyBin_length _ mh et' i ▸ hlen'
      · intro j2
        rcases hb : binOf verts mh i with _ | ⟨r, e⟩
        · rw [hb] at hbt
          simp only [Option.map_none'] at hbt
          have happly : applyBin verts mh et i = et := by
            unfold applyBin; rw [hb]
          have happly2 : applyBin (verts.map (translateVertex (k : Int))) mh et' i = et' := by
            unfold applyBin; rw [hbt]
          rw [happly, happly2]
          exact hrel j2
        · rw [hb] at hbt
          simp only [Option.map_some'] at hbt
          have hwf := binOf_some_wf verts mh i hi r e hb
          have hwf' := binOf_some_wf (verts.map (translateVertex (k : Int))) mh i
            (by simpa using hi) (r + k) (shiftEdge (k : Int) e) hbt
          have happly : applyBin verts mh et i = etPush et r e := by
            unfold applyBin; rw [hb]
          have happly2 : applyBin (verts.map (translateVertex (k : Int))) mh et' i =
              etPush et' (r + k) (shiftEdge (k : Int) e) := by
            unfold applyBin; rw [hbt]
          rw [happly, happly2]
          rw [getD_etPush, getD_etPush]
          by_cases hj : j2 = r + k
          · subst hj
            rw [if_pos ⟨rfl, by omega⟩, if_pos (by omega : k ≤ r + k)]
            rw [if_pos ⟨by omega, by omega⟩]
            rw [hrel (r + k), if_pos (by omega : k ≤ r + k),
              show r + k - k = r from by omega, List.map_append]
            rfl
          · rw [if_neg (fun hc => hj hc.1.symm)]
            by_cases hk2 : k ≤ j2
            · rw [if_pos hk2, if_neg (fun hc => hj (by omega)), hrel j2, if_pos hk2]
            · rw [if_neg hk2, hrel j2, if_neg hk2]
  intro j
  unfold buildEdgeTable
  rw [List.length_map]
  by_cases h2 : verts.length < 2
  · rw [if_pos h2, if_pos h2, getD_replicate_nil, getD_replicate_nil]
    simp
  · rw [if_neg h2, if_neg h2]
    exact key (List.range verts.length) (fun x hx => List.mem_range.mp hx)
      (List.replicate mh []) (List.replicate mh [])
      (List.length_replicate _ _) (List.length_replicate _ _)
      (fun j2 => by rw [getD_replicate_nil, getD_replicate_nil]; simp) j

theorem mergedAET_shift (et et' : List (List EdgeData)) (k : Nat)
    (hrel : ∀ j : Nat, et'.getD j [] =
      if k ≤ j then (et.getD (j - k) []).map (shiftEdge (k : Int)) else [])
    (s : FillState) :
    mergedAET et' (shiftState k s) = (mergedAET et s).map (shiftEdge (k : Int)) := by
  unfold mergedAET shiftState
  dsimp only
  rw [hrel (s.scanLine + k), if_pos (by omega : k ≤ s.scanLine + k),
    show s.scanLine + k - k = s.scanLine from by omega,
    ← List.map_append, sortByX_map_shift]

theorem advanceEdge_shift (k : Int) (e : EdgeData) :
    advanceEdge (shiftEdge k e) = shiftEdge k (advanceEdge e) := rfl

theorem coreStep_shift (et et' : List (List EdgeData)) (k : Nat)
    (hrel : ∀ j : Nat, et'.getD j [] =
      if k ≤ j then (et.getD (j - k) []).map (shiftEdge (k : Int)) else [])
    (s : FillState) :
    coreStep et' (shiftState k s) = shiftState k (coreStep et s) := by
  unfold coreStep
  dsimp only
  rw [mergedAET_shift et et' k hrel s]
  unfold shiftState
  dsimp only
  refine congrArg₂ FillState.mk (by omega) ?_
  rw [List.map_map]
  have hcomp : advanceEdge ∘ shiftEdge (k : Int) = shiftEdge (k : Int) ∘ advanceEdge := rfl
  rw [hcomp, ← List.map_map, List.filter_map]
  congr 1
  apply List.filter_congr
  intro e he
  have hmax : (shiftEdge (k : Int) e).maximumY = e.maximumY + k := rfl
  simp only [Function.comp_apply, hmax]
  rw [decide_eq_decide]
  push_cast
  omega

theorem stateAt_empty_below (et : List (List EdgeData)) (m : Nat)
    (hempty : ∀ j, j < m → et.getD j [] = []) :
    ∀ n, n ≤ m → stateAt et n = ⟨n, []⟩
  | 0, _ => rfl
  | n + 1, h => by
    have ih := stateAt_empty_below et m hempty n (by omega)
    rw [stateAt_succ, ih]
    have hnil : et.getD n [] = [] := hempty n (by omega)
    simp only [coreStep, mergedAET, hnil, List.nil_append, sortByX, List.map_nil,
      List.filter_nil]

theorem stateAt_shift (et et' : List (List EdgeData)) (k : Nat)
    (hrel : ∀ j : Nat, et'.getD j [] =
      if k ≤ j then (et.getD (j - k) []).map (shiftEdge (k : Int)) else []) :
    ∀ n : Nat, stateAt et' (n + k) = shiftState k (stateAt et n)
  | 0 => by
    have hbase : stateAt et' k = ⟨k, []⟩ := by
      refine stateAt_empty_below et' k (fun j hj => ?_) k (le_refl _)
      rw [hrel j, if_neg (by omega)]
    rw [Nat.zero_add, hbase]
    show (⟨k, []⟩ : FillState) = ⟨0 + k, List.map (shiftEdge (k : Int)) []⟩
    exact congrArg₂ FillState.mk (by omega) rfl
  | n + 1 => by
    have ih := stateAt_shift et et' k hrel n
    have hidx : n + 1 + k = (n + k) + 1 := by omega
    rw [hidx, stateAt_succ, ih, coreStep_shift et et' k hrel, ← stateAt_succ]

theorem stateAt_aet_vertexY (verts : List Point2D) (mh : Nat) :
    ∀ n : Nat, ∀ e ∈ (stateAt (buildEdgeTable verts mh) n).aet,
      ∃ w ∈ verts, e.maximumY = w.coordinateY
  | 0, e, he => by simp [stateAt] at he
  | n + 1, e, he => by
    rw [stateAt_succ] at he
    simp only [coreStep] at he
    have h1 := (List.mem_filter.mp he).1
    obtain ⟨e0, he0, hee⟩ := List.mem_map.mp h1
    rw [mergedAET, mem_sortByX] at he0
    have hmax : e.maximumY = e0.maximumY := by rw [← hee]; rfl
    rw [hmax]
    rcases List.mem_append.mp he0 with h2 | h2
    · exact stateAt_aet_vertexY verts mh n e0 h2
    · exact (buildEdgeTable_wf verts mh _ e0 h2).2.2.2.1

theorem merged_vertexY (verts : List Point2D) (mh : Nat) (n : Nat) :
    ∀ e ∈ mergedAET (buildEdgeTable verts mh) (stateAt (buildEdgeTable verts mh) n),
      (n : Int) ≤ e.maximumY ∧ ∃ w ∈ verts, e.maximumY = w.coordinateY := by
  intro e he
  rw [mergedAET, mem_sortByX] at he
  rcases List.mem_append.mp he with h2 | h2
  · exact ⟨le_of_lt (stateAt_aet_maxY _ _ _ h2), stateAt_aet_vertexY verts mh n e h2⟩
  · rw [stateAt_scanLine] at h2
    have hwf := buildEdgeTable_wf verts mh _ e h2
    exact ⟨hwf.2.1, hwf.2.2.2.1⟩

theorem merged_row_bounds (verts : List Point2D) (k mh : Nat)
    (hin : ∀ v ∈ verts, (0 ≤ v.coordinateY ∧ v.coordinateY < (mh : Int)) ∧
      (0 ≤ v.coordinateY + (k : Int) ∧ v.coordinateY + (k : Int) < (mh : Int)))
    (n : Nat)
    (hne : mergedAET (buildEdgeTable verts mh) (stateAt (buildEdgeTable verts mh) n) ≠ []) :
    (n : Int) < (mh : Int) ∧ (n : Int) + (k : Int) < (mh : Int) := by
  obtain ⟨e, he⟩ := List.exists_mem_of_ne_nil _ hne
  obtain ⟨hle, w, hw, hmax⟩ := merged_vertexY verts mh n e he
  have hbw := hin w hw
  rw [hmax] at hle
  exact ⟨by omega, by omega⟩

theorem emitPairs_shift (mh mw k : Nat) (y : Int)
    (h0 : 0 ≤ y) (h1 : y < (mh : Int)) (h2 : y + (k : Int) < (mh : Int)) :
    ∀ l : List EdgeData,
      emitPairs mh mw (y + (k : Int)) (l.map (shiftEdge (k : Int))) =
        (emitPairs mh mw y l).map (shiftOut (k : Int))
  | [] => rfl
  | [e] => by
    simp only [List.map_cons, List.map_nil, emitPairs]
    have hx : (shiftEdge (k : Int) e).currentX = e.currentX := rfl
    rw [hx]
    by_cases hxr : 0 ≤ ratTrunc (e.currentX + 1/2) ∧ ratTrunc (e.currentX + 1/2) < (mw : Int)
    · rw [if_pos ⟨hxr.1, hxr.2, by omega, by omega⟩, if_pos ⟨hxr.1, hxr.2, h0, h1⟩]
      rfl
    · rw [if_neg (fun hc => hxr ⟨hc.1, hc.2.1⟩), if_neg (fun hc => hxr ⟨hc.1, hc.2.1⟩)]
      rfl
  | e1 :: e2 :: rest => by
    have ih := emitPairs_shift mh mw k y h0 h1 h2 rest
    simp only [List.map_cons, emitPairs]
    have hx1 : (shiftEdge (k : Int) e1).currentX = e1.currentX := rfl
    have hx2 : (shiftEdge (k : Int) e2).currentX = e2.currentX := rfl
    rw [hx1, hx2, ih, List.map_append]
    congr 1
    by_cases hc : (spanClamp mw (ratTrunc (e1.currentX + 1/2)) (ratTrunc (e2.currentX + 1/2))).1 ≤
        (spanClamp mw (ratTrunc (e1.currentX + 1/2)) (ratTrunc (e2.currentX + 1/2))).2
    · rw [if_pos ⟨hc, by omega, by omega⟩, if_pos ⟨hc, h0, h1⟩]
      rfl
    · rw [if_neg (fun hq => hc hq.1), if_neg (fun hq => hc hq.1)]
      rfl

theorem fillRowOut_shift (mh mw k : Nat) (y : Int) (l : List EdgeData)
    (hbnd : l ≠ [] → 0 ≤ y ∧ y < (mh : Int) ∧ y + (k : Int) < (mh : Int)) :
    fillRowOut (l.map (shiftEdge (k : Int))) (y + (k : Int)) mh mw =
      (fillRowOut l y mh mw).map (shiftOut (k : Int)) := by
  rcases l with _ | ⟨e, rest⟩
  · rfl
  · obtain ⟨h0, h1, h2⟩ := hbnd (by simp)
    unfold fillRowOut
    rw [List.length_map]
    by_cases hlen : 2 ≤ (e :: rest).length
    · rw [if_pos hlen, if_pos hlen]
      exact emitPairs_shift mh mw k y h0 h1 h2 _
    · rw [if_neg hlen, if_neg hlen]
      rfl

theorem bucket_empty_below_firstRow (et : List (List EdgeData)) (j : Nat)
    (hj : j < firstRow et) : et.getD j [] = [] := by
  have hfrlen : firstRow et ≤ et.length := List.findIdx_le_length _
  have hjlen : j < et.length := by omega
  have hfalse : (fun b : List EdgeData => !b.isEmpty) (et.getD j []) = false := by
    rw [List.getD_eq_getElem et [] hjlen]
    exact List.not_of_lt_findIdx hj
  simp only [Bool.not_eq_false'] at hfalse
  exact List.isEmpty_iff.mp hfalse

theorem fillPolygon_flatMap (verts : List Point2D) (mh mw : Nat)
    (h3 : ¬ verts.length < 3) (N : Nat)
    (hN : (buildEdgeTable verts mh).length + loopFuel (buildEdgeTable verts mh) ≤ N) :
    fillPolygon verts mh mw = (List.range N).flatMap
      (fun m => fillRowOut
        (mergedAET (buildEdgeTable verts mh) (stateAt (buildEdgeTable verts mh) m))
        (m : Int) mh mw) := by
  unfold fillPolygon
  rw [if_neg h3]
  by_cases hfr : (buildEdgeTable verts mh).length ≤ firstRow (buildEdgeTable verts mh)
  · rw [if_pos hfr]
    have hempty : ∀ j, (buildEdgeTable verts mh).getD j [] = [] := by
      intro j
      by_cases hj : j < (buildEdgeTable verts mh).length
      · exact bucket_empty_below_firstRow _ j (by omega)
      · exact List.getD_eq_default _ _ (by omega)
    symm
    rw [List.flatMap_eq_nil_iff]
    intro m _
    have hstate : stateAt (buildEdgeTable verts mh) m = ⟨m, []⟩ :=
      stateAt_empty_below _ m (fun j _ => hempty j) m (le_refl _)
    rw [hstate]
    show fillRowOut (sortByX ([] ++ (buildEdgeTable verts mh).getD m [])) (m : Int) mh mw = []
    rw [hempty m]
    rfl
  · rw [if_neg hfr]
    rw [fillLoop_eq_flatMap]
    have hiter : ∀ j, ((coreStep (buildEdgeTable verts mh))^[j])
        (⟨firstRow (buildEdgeTable verts mh), []⟩ : FillState) =
        stateAt (buildEdgeTable verts mh) (firstRow (buildEdgeTable verts mh) + j) := by
      intro j
      rw [← stateAt_eq_of_le_firstRow (buildEdgeTable verts mh)
        (firstRow (buildEdgeTable verts mh)) (le_refl _)]
      unfold stateAt
      rw [← Function.iterate_add_apply]
      congr 1
      omega
    have hfun : (fun j => fillRowOut
        (mergedAET (buildEdgeTable verts mh) (((coreStep (buildEdgeTable verts mh))^[j])
          (⟨firstRow (buildEdgeTable verts mh), []⟩ : FillState)))
        (((((coreStep (buildEdgeTable verts mh))^[j])
          (⟨firstRow (buildEdgeTable verts mh), []⟩ : FillState)).scanLine : Int)) mh mw) =
        (fun j => fillRowOut
          (mergedAET (buildEdgeTable verts mh)
            (stateAt (buildEdgeTable verts mh) (firstRow (buildEdgeTable verts mh) + j)))
          ((firstRow (buildEdgeTable verts mh) + j : Nat) : Int) mh mw) := by
      funext j
      rw [hiter j, stateAt_scanLine]
    rw [hfun]
    rw [show N = firstRow (buildEdgeTable verts mh) +
      (N - firstRow (buildEdgeTable verts mh)) from by omega]
    rw [List.range_add, List.flatMap_append, List.flatMap_map]
    have hlow : (List.range (firstRow (buildEdgeTable verts mh))).flatMap
        (fun m => fillRowOut
          (mergedAET (buildEdgeTable verts mh) (stateAt (buildEdgeTable verts mh) m))
          (m : Int) mh mw) = [] := by
      rw [List.flatMap_eq_nil_iff]
      intro m hm
      have hmlt : m < firstRow (buildEdgeTable verts mh) := List.mem_range.mp hm
      have hstate : stateAt (buildEdgeTable verts mh) m = ⟨m, []⟩ :=
        stateAt_eq_of_le_firstRow _ m (by omega)
      rw [hstate]
      show fillRowOut (sortByX ([] ++ (buildEdgeTable verts mh).getD m [])) (m : Int) mh mw = []
      rw [bucket_empty_below_firstRow _ m hmlt]
      rfl
    rw [hlow, List.nil_append]
    symm
    apply flatMap_range_stable _ (loopFuel (buildEdgeTable verts mh))
      (N - firstRow (buildEdgeTable verts mh)) (by omega)
    intro j hj
    rw [← hiter j]
    have hsc : (((coreStep (buildEdgeTable verts mh))^[j])
        (⟨firstRow (buildEdgeTable verts mh), []⟩ : FillState)).scanLine =
        firstRow (buildEdgeTable verts mh) + j := by
      rw [hiter j, stateAt_scanLine]
    rw [← hsc]
    exact fillRowOut_terminal _ mh mw _
      (start_orbit_terminal (buildEdgeTable verts mh) _ j hj)

theorem map_flatMap_out (g : FillOut → FillOut) (f : Nat → List FillOut) (l : List Nat) :
    (l.flatMap f).map g = l.flatMap (fun a => (f a).map g) := by
  induction l with
  | nil => rfl
  | cons a rest ih => rw [List.flatMap_cons, List.flatMap_cons, List.map_append, ih]

theorem fill_translate_nat (verts : List Point2D) (k mh mw : Nat)
    (hin : ∀ v ∈ verts, (0 ≤ v.coordinateY ∧ v.coordinateY < (mh : Int)) ∧
      (0 ≤ v.coordinateY + (k : Int) ∧ v.coordinateY + (k : Int) < (mh : Int))) :
    fillPolygon (verts.map (translateVertex (k : Int))) mh mw =
      (fillPolygon verts mh mw).map (shiftOut (k : Int)) := by
  by_cases h3 : verts.length < 3
  · unfold fillPolygon
    rw [if_pos (by simpa using h3), if_pos h3]
    rfl
  · have hrel := buildEdgeTable_translate verts k mh hin
    have h3' : ¬ (verts.map (translateVertex (k : Int))).length < 3 := by simpa using h3
    obtain ⟨N, hN1, hN2⟩ : ∃ N,
        (buildEdgeTable verts mh).length + loopFuel (buildEdgeTable verts mh) ≤ N ∧
        (buildEdgeTable (verts.map (translateVertex (k : Int))) mh).length +
          loopFuel (buildEdgeTable (verts.map (translateVertex (k : Int))) mh) ≤ k + N :=
      ⟨(buildEdgeTable verts mh).length + loopFuel (buildEdgeTable verts mh) +
        ((buildEdgeTable (verts.map (translateVertex (k : Int))) mh).length +
          loopFuel (buildEdgeTable (verts.map (translateVertex (k : Int))) mh)),
        by omega, by omega⟩
    rw [fillPolygon_flatMap verts mh mw h3 N hN1,
      fillPolygon_flatMap _ mh mw h3' (k + N) hN2,
      map_flatMap_out]
    have hrow : ∀ m : Nat,
        (fillRowOut (mergedAET (buildEdgeTable verts mh)
          (stateAt (buildEdgeTable verts mh) m)) (m : Int) mh mw).map
            (shiftOut (k : Int)) =
        fillRowOut (mergedAET (buildEdgeTable (verts.map (translateVertex (k : Int))) mh)
          (stateAt (buildEdgeTable (verts.map (translateVertex (k : Int))) mh) (m + k)))
          ((m + k : Nat) : Int) mh mw := by
      intro m
      rw [stateAt_shift _ _ k hrel m, mergedAET_shift _ _ k hrel,
        show ((m + k : Nat) : Int) = (m : Int) + (k : Int) from by push_cast; ring,
        fillRowOut_shift mh mw k (m : Int) _
          (fun hne => ⟨Int.natCast_nonneg m,
            (merged_row_bounds verts k mh hin m hne).1,
            (merged_row_bounds verts k mh hin m hne).2⟩)]
    rw [funext hrow]
    rw [List.range_add, List.flatMap_append, List.flatMap_map]
    have hlow : (List.range k).flatMap
        (fun m => fillRowOut
          (mergedAET (buildEdgeTable (verts.map (translateVertex (k : Int))) mh)
            (stateAt (buildEdgeTable (verts.map (translateVertex (k : Int))) mh) m))
          (m : Int) mh mw) = [] := by
      rw [List.flatMap_eq_nil_iff]
      intro m hm
      have hmlt : m < k := List.mem_range.mp hm
      have hbempty : ∀ j, j < k →
          (buildEdgeTable (verts.map (translateVertex (k : Int))) mh).getD j [] = [] := by
        intro j hj
        rw [hrel j, if_neg (by omega)]
      have hstate : stateAt (buildEdgeTable (verts.map (translateVertex (k : Int))) mh) m =
          ⟨m, []⟩ :=
        stateAt_empty_below _ k hbempty m (by omega)
      rw [hstate]
      show fillRowOut (sortByX ([] ++
        (buildEdgeTable (verts.map (translateVertex (k : Int))) mh).getD m []))
        (m : Int) mh mw = []
      rw [hbempty m hmlt]
      rfl
    rw [hlow, List.nil_append]
    congr 1
    funext a
    rw [Nat.add_comm k a]

/-- C6: filling a polygon with every vertex translated vertically by `k`
rows produces exactly the output of the original fill with each span's
(and point's) row translated by `k`, provided `maxHeight` is large enough
that neither the original nor the translated polygon is clipped against
`[0, maxHeight)`. -/
theorem fill_vertical_translation (polygonVertices : List Point2D) (k : Int)
    (maxHeight maxWidth : Nat)
    (hin : ∀ v ∈ polygonVertices,
      (0 ≤ v.coordinateY ∧ v.coordinateY < (maxHeight : Int)) ∧
      (0 ≤ v.coordinateY + k ∧ v.coordinateY + k < (maxHeight : Int))) :
    fillPolygon (polygonVertices.map (translateVertex k)) maxHeight maxWidth =
      (fillPolygon polygonVertices maxHeight maxWidth).map (shiftOut k) := by
  rcases Int.le_or_lt 0 k with hk | hk
  · obtain ⟨kn, rfl⟩ : ∃ n : Nat, k = (n : Int) := ⟨k.toNat, (Int.toNat_of_nonneg hk).symm⟩
    exact fill_translate_nat polygonVertices kn maxHeight maxWidth hin
  · obtain ⟨kn, hkn⟩ : ∃ n : Nat, (n : Int) = -k :=
      ⟨(-k).toNat, Int.toNat_of_nonneg (by omega)⟩
    have hid : ∀ v : Point2D, translateVertex (kn : Int) (translateVertex k v) = v := by
      intro v
      cases v with
      | mk x y =>
        simp only [translateVertex, Point2D.mk.injEq, true_and]
        omega
    have hin' : ∀ v ∈ polygonVertices.map (translateVertex k),
        (0 ≤ v.coordinateY ∧ v.coordinateY < (maxHeight : Int)) ∧
        (0 ≤ v.coordinateY + (kn : Int) ∧
          v.coordinateY + (kn : Int) < (maxHeight : Int)) := by
      intro v hv
      obtain ⟨w, hw, rfl⟩ := List.mem_map.mp hv
      have hb := hin w hw
      have hy : (translateVertex k w).coordinateY = w.coordinateY + k := rfl
      rw [hy]
      exact ⟨⟨hb.2.1, hb.2.2⟩, ⟨by omega, by omega⟩⟩
    have h1 := fill_translate_nat (polygonVertices.map (translateVertex k)) kn
      maxHeight maxWidth hin'
    rw [List.map_map] at h1
    have hmapid : polygonVertices.map (translateVertex (kn : Int) ∘ translateVertex k) =
        polygonVertices := by
      rw [show translateVertex (kn : Int) ∘ translateVertex k = id from funext hid,
        List.map_id]
    rw [hmapid] at h1
    rw [h1, List.map_map]
    have hout : shiftOut k ∘ shiftOut (kn : Int) = id := by
      funext o
      cases o with
      | span row xStart xEnd =>
        simp only [Function.comp_apply, shiftOut, id_eq, FillOut.span.injEq,
          and_true, true_and]
        omega
      | point row x =>
        simp only [Function.comp_apply, shiftOut, id_eq, FillOut.point.injEq,
          and_true, true_and]
        omega
    rw [hout, List.map_id]

/-- C6 witness: translating the Scenario A square down by 5 rows inside a
60-row raster shifts every emitted span by 5 rows. -/
theorem fill_vertical_translation_witness :
    (∀ v ∈ squareVerts, (0 ≤ v.coordinateY ∧ v.coordinateY < (60 : Int)) ∧
      (0 ≤ v.coordinateY + (5 : Int) ∧ v.coordinateY + (5 : Int) < (60 : Int))) ∧
    fillPolygon (squareVerts.map (translateVertex 5)) 60 60 =
      (fillPolygon squareVerts 60 60).map (shiftOut 5) :=
  ⟨by decide, fill_vertical_translation squareVerts 5 60 60 (by decide)⟩
